import Mathlib

/-!
Verification development for the rlottie-rs core.

Shallow embedding conventions:
* u32 / usize values are embedded as Nat; where the source could overflow,
  the theorems carry the explicit bound hypotheses stated by the spec.
* f32 values of the timeline kernel (timeline.rs) are embedded as exact
  rationals: every operation there is +, -, *, / and comparisons, so the
  algorithms translate verbatim.  f32 literal constants are embedded as the
  exact decimal they denote.
* f32 values of the geometry kernel and rasterizer are embedded as reals,
  because segment lengths take square roots.
* bounded source loops (the 256-entry LUT walk, the 4 Newton iterations,
  the 10 bisection iterations) are embedded with an explicit fuel equal to
  the source iteration bound, so the embedding computes exactly the same
  iterations the source performs.
-/

set_option maxHeartbeats 4000000
set_option maxRecDepth 4000

namespace Rlottie

/-! ## Timeline kernel (src/rlottie_core/src/timeline.rs), embedded over ℚ -/

/-- Two-component vector of the timeline kernel; f32 fields embedded as ℚ. -/
structure Vec2Q where
  x : ℚ
  y : ℚ
deriving DecidableEq

/-- LUT_SIZE constant from timeline.rs. -/
def LUT_SIZE : ℕ := 256

/-- SAMPLE_STEP = 1.0 / (LUT_SIZE - 1.0) = 1/255. -/
def SAMPLE_STEP : ℚ := 1 / 255

/-- NEWTON_ITERATIONS constant from timeline.rs. -/
def NEWTON_ITERATIONS : ℕ := 4

/-- NEWTON_MIN_SLOPE = 0.02. -/
def NEWTON_MIN_SLOPE : ℚ := 2 / 100

/-- SUBDIVISION_PRECISION = 1e-7. -/
def SUBDIVISION_PRECISION : ℚ := 1 / 10000000

/-- SUBDIVISION_MAX_ITERATIONS constant from timeline.rs. -/
def SUBDIVISION_MAX_ITERATIONS : ℕ := 10

/-- f32::EPSILON = 2 ^ (-23). -/
def F32_EPSILON : ℚ := 1 / 8388608

/-- f32::abs, on the exact rational embedding. -/
def fabs (q : ℚ) : ℚ := if q < 0 then -q else q

/-- Cubic Bezier easing curve defined by two control points
(CubicBezier in timeline.rs).  The precomputed sample table is embedded as
the function CubicBezier.samples below: it holds exactly the values the
source constructor precomputes. -/
structure CubicBezier where
  c1 : Vec2Q
  c2 : Vec2Q
deriving DecidableEq

namespace CubicBezier

/-- coeff_a from timeline.rs. -/
def coeff_a (a1 a2 : ℚ) : ℚ := 1 - 3 * a2 + 3 * a1

/-- coeff_b from timeline.rs. -/
def coeff_b (a1 a2 : ℚ) : ℚ := 3 * a2 - 6 * a1

/-- coeff_c from timeline.rs. -/
def coeff_c (a1 : ℚ) : ℚ := 3 * a1

/-- calc_bezier from timeline.rs. -/
def calc_bezier (t a1 a2 : ℚ) : ℚ :=
  ((coeff_a a1 a2 * t + coeff_b a1 a2) * t + coeff_c a1) * t

/-- get_slope from timeline.rs. -/
def get_slope (t a1 a2 : ℚ) : ℚ :=
  3 * coeff_a a1 a2 * t * t + 2 * coeff_b a1 a2 * t + coeff_c a1

/-- CubicBezier::new; the sample table is derived, not stored. -/
def new (c1 c2 : Vec2Q) : CubicBezier := ⟨c1, c2⟩

/-- Entry i of the precomputed sample table (calc_samples in timeline.rs):
calc_bezier(i * SAMPLE_STEP, c1.x, c2.x). -/
def samples (b : CubicBezier) (i : ℕ) : ℚ :=
  calc_bezier ((i : ℚ) * SAMPLE_STEP) b.c1.x b.c2.x

/-- The while loop of get_t_for_x: advance current_sample while
current_sample < LUT_SIZE - 1 and samples[current_sample] <= x, tracking
interval_start.  Fuel 255 can never run out: the loop starts at 1 and the
guard stops it at 255. -/
def lut_walk (b : CubicBezier) (x : ℚ) : ℕ → ℕ → ℚ → ℕ × ℚ
  | 0, cur, istart => (cur, istart)
  | fuel + 1, cur, istart =>
    if cur < LUT_SIZE - 1 ∧ b.samples cur ≤ x then
      lut_walk b x fuel (cur + 1) (istart + SAMPLE_STEP)
    else
      (cur, istart)

/-- The Newton-Raphson refinement loop of get_t_for_x, NEWTON_ITERATIONS
iterations; returns early when the slope is exactly zero. -/
def newton_refine (b : CubicBezier) (x : ℚ) : ℕ → ℚ → ℚ
  | 0, t => t
  | fuel + 1, t =>
    let current_x := calc_bezier t b.c1.x b.c2.x - x
    let current_slope := get_slope t b.c1.x b.c2.x
    if current_slope = 0 then t
    else newton_refine b x fuel (t - current_x / current_slope)

/-- binary_subdivide from timeline.rs: up to SUBDIVISION_MAX_ITERATIONS
bisection steps; the last argument carries current_t (initially 0.0). -/
def binary_subdivide (b : CubicBezier) (x : ℚ) : ℕ → ℚ → ℚ → ℚ → ℚ
  | 0, _, _, current_t => current_t
  | fuel + 1, a, bb, _ =>
    let current_t := a + (bb - a) / 2
    let current_x := calc_bezier current_t b.c1.x b.c2.x - x
    if fabs current_x ≤ SUBDIVISION_PRECISION then current_t
    else if current_x > 0 then binary_subdivide b x fuel a current_t current_t
    else binary_subdivide b x fuel current_t bb current_t

/-- get_t_for_x from timeline.rs. -/
def get_t_for_x (b : CubicBezier) (x : ℚ) : ℚ :=
  let w := lut_walk b x 255 1 0
  let current_sample := w.1 - 1
  let dist := (x - b.samples current_sample) /
    (b.samples (current_sample + 1) - b.samples current_sample)
  let guess_t := w.2 + dist * SAMPLE_STEP
  let initial_slope := get_slope guess_t b.c1.x b.c2.x
  if initial_slope ≥ NEWTON_MIN_SLOPE then
    newton_refine b x NEWTON_ITERATIONS guess_t
  else if initial_slope = 0 then guess_t
  else binary_subdivide b x SUBDIVISION_MAX_ITERATIONS w.2 (w.2 + SAMPLE_STEP) 0

/-- CubicBezier::value from timeline.rs. -/
def value (b : CubicBezier) (x : ℚ) : ℚ :=
  if fabs (b.c1.x - b.c1.y) < F32_EPSILON ∧ fabs (b.c2.x - b.c2.y) < F32_EPSILON then
    x
  else
    calc_bezier (get_t_for_x b x) b.c1.y b.c2.y

end CubicBezier

/-- The Lerp trait of timeline.rs: linear interpolation with factor t. -/
class Lerp (T : Type) where
  lerp : T → T → ℚ → T

/-- impl Lerp for f32, on the exact rational embedding. -/
instance : Lerp ℚ where
  lerp a b t := a + (b - a) * t

/-- impl Lerp for Vec2, on the exact rational embedding. -/
instance : Lerp Vec2Q where
  lerp a b t := ⟨a.x + (b.x - a.x) * t, a.y + (b.y - a.y) * t⟩

/-- Keyframe from timeline.rs; the end field is renamed end_u because end is
a Lean keyword.  start and end_u are u32 frame indices. -/
structure Keyframe (T : Type) where
  start : ℕ
  end_u : ℕ
  start_v : T
  end_v : T
  ease : CubicBezier

/-- Keyframe::sample from timeline.rs; the frame argument is f32, embedded
as ℚ. -/
def Keyframe.sample [Lerp T] (kf : Keyframe T) (frame : ℚ) : T :=
  if frame ≤ (kf.start : ℚ) then kf.start_v
  else if frame ≥ (kf.end_u : ℚ) then kf.end_v
  else
    let progress := (frame - (kf.start : ℚ)) / ((kf.end_u : ℚ) - (kf.start : ℚ))
    let eased := kf.ease.value progress
    Lerp.lerp kf.start_v kf.end_v eased

/-- Animator from timeline.rs: an ordered list of keyframes. -/
structure Animator (T : Type) where
  frames : List (Keyframe T)

/-- The linear search loop inside Animator::value: return the sample of the
first keyframe whose half-open range contains the frame, or the default. -/
def Animator.search [Lerp T] [Inhabited T] (frame : ℚ) : List (Keyframe T) → T
  | [] => default
  | kf :: rest =>
    if (kf.start : ℚ) ≤ frame ∧ frame < (kf.end_u : ℚ) then kf.sample frame
    else Animator.search frame rest

/-- Animator::value from timeline.rs.  Rust Default is embedded as
Inhabited.default. -/
def Animator.value [Lerp T] [Inhabited T] (a : Animator T) (frame : ℚ) : T :=
  match a.frames with
  | [] => default
  | first :: rest =>
    if frame ≤ (first.start : ℚ) then first.start_v
    else
      let last := (first :: rest).getLast (List.cons_ne_nil first rest)
      if frame ≥ (last.end_u : ℚ) then last.end_v
      else Animator.search frame (first :: rest)

/-- Well-formedness invariant of an Animator, as stated by the data model
of the spec: every keyframe satisfies end > start, and the keyframes are
non-overlapping and sorted by start frame. -/
def Animator.WF (a : Animator T) : Prop :=
  (∀ kf ∈ a.frames, kf.start < kf.end_u) ∧
    List.Chain' (fun p q => p.end_u ≤ q.start) a.frames

/-! ## Geometry kernel (src/rlottie_core/src/geometry/path.rs), embedded
over ℝ because segment lengths take square roots. -/

noncomputable section

/-- 2D vector of the geometry kernel and renderer (Vec2 in types.rs);
f32 fields embedded as ℝ. -/
structure Vec2 where
  x : ℝ
  y : ℝ

instance : Inhabited Vec2 := ⟨⟨0, 0⟩⟩

/-- A line segment (path.rs); the fields from and to are renamed from_v
and to_v because from and to are Lean keywords. -/
structure LineSegment where
  from_v : Vec2
  to_v : Vec2

/-- Equality of geometric points is f32 equality in the source; the
embedding uses classical decidability on ℝ. -/
noncomputable instance : DecidableEq Vec2 := Classical.decEq _

/-- LineSegment::length from path.rs. -/
def LineSegment.length (s : LineSegment) : ℝ :=
  let dx := s.to_v.x - s.from_v.x
  let dy := s.to_v.y - s.from_v.y
  Real.sqrt (dx * dx + dy * dy)

/-- PathSeg from path.rs. -/
inductive PathSeg where
  | MoveTo (p : Vec2)
  | LineTo (p : Vec2)
  | Cubic (c1 c2 p : Vec2)
  | Close

/-- Path from path.rs: an ordered list of segments. -/
structure Path where
  segments : List PathSeg

namespace Path

/-- Path::new. -/
def new : Path := ⟨[]⟩

/-- Path::move_to (append). -/
def move_to (p : Path) (v : Vec2) : Path := ⟨p.segments ++ [PathSeg.MoveTo v]⟩

/-- Path::line_to (append). -/
def line_to (p : Path) (v : Vec2) : Path := ⟨p.segments ++ [PathSeg.LineTo v]⟩

/-- Path::cubic_to (append). -/
def cubic_to (p : Path) (c1 c2 v : Vec2) : Path :=
  ⟨p.segments ++ [PathSeg.Cubic c1 c2 v]⟩

/-- Path::close (append). -/
def close (p : Path) : Path := ⟨p.segments ++ [PathSeg.Close]⟩

end Path

/-- mid from path.rs. -/
def mid (a b : Vec2) : Vec2 := ⟨(a.x + b.x) * 0.5, (a.y + b.y) * 0.5⟩

/-- lerp from path.rs (linear interpolation of points). -/
def lerpv (a b : Vec2) (t : ℝ) : Vec2 :=
  ⟨a.x + (b.x - a.x) * t, a.y + (b.y - a.y) * t⟩

/-- point_line_distance_sq from path.rs. -/
def point_line_distance_sq (p a b : Vec2) : ℝ :=
  let vx := b.x - a.x
  let vy := b.y - a.y
  let u := ((p.x - a.x) * vx + (p.y - a.y) * vy) / (vx * vx + vy * vy)
  let x := a.x + u * vx
  let y := a.y + u * vy
  let dx := x - p.x
  let dy := y - p.y
  dx * dx + dy * dy

/-- cubic_flat_enough from path.rs. -/
def cubic_flat_enough (p0 c1 c2 p3 : Vec2) (tol : ℝ) : Prop :=
  point_line_distance_sq c1 p0 p3 ≤ tol * tol ∧
    point_line_distance_sq c2 p0 p3 ≤ tol * tol

instance (p0 c1 c2 p3 : Vec2) (tol : ℝ) : Decidable (cubic_flat_enough p0 c1 c2 p3 tol) := by
  unfold cubic_flat_enough; infer_instance

/-- Subdivision depth cap for the embedding of flatten_cubic.  The source
recursion is unbounded and terminates by geometric convergence of midpoint
subdivision; the embedding makes the recursion structural on this depth,
which no input of the theorems below ever exhausts. -/
def FLATTEN_FUEL : ℕ := 64

/-- flatten_cubic from path.rs: recursive midpoint (de Casteljau)
subdivision, emitting chords once both control points are within
tolerance of the chord.  split_cubic is inlined: m1..m6 are exactly the
midpoints the source computes. -/
def flatten_cubic : ℕ → Vec2 → Vec2 → Vec2 → Vec2 → ℝ → List LineSegment
  | 0, p0, _, _, p3, _ => [⟨p0, p3⟩]
  | fuel + 1, p0, c1, c2, p3, tol =>
    if cubic_flat_enough p0 c1 c2 p3 tol then [⟨p0, p3⟩]
    else
      let m1 := mid p0 c1
      let m2 := mid c1 c2
      let m3 := mid c2 p3
      let m4 := mid m1 m2
      let m5 := mid m2 m3
      let m6 := mid m4 m5
      flatten_cubic fuel p0 m1 m4 m6 tol ++ flatten_cubic fuel m6 m5 m3 p3 tol

/-- The walk inside Path::flatten, with explicit state: subpath start
point, current point, has_start flag. -/
def flatten_go (tol : ℝ) : Vec2 → Vec2 → Bool → List PathSeg → List LineSegment
  | _, _, _, [] => []
  | _, _, _, PathSeg.MoveTo p :: rest => flatten_go tol p p true rest
  | start, current, hs, PathSeg.LineTo p :: rest =>
    ⟨current, p⟩ :: flatten_go tol start p hs rest
  | start, current, hs, PathSeg.Cubic c1 c2 p :: rest =>
    flatten_cubic FLATTEN_FUEL current c1 c2 p tol ++ flatten_go tol start p hs rest
  | start, current, hs, PathSeg.Close :: rest =>
    (if hs ∧ current ≠ start then [(⟨current, start⟩ : LineSegment)] else []) ++
      flatten_go tol start start hs rest

/-- Path::flatten from path.rs.  Start and current point begin at the
origin (Vec2::default). -/
def Path.flatten (p : Path) (tol : ℝ) : List LineSegment :=
  flatten_go tol default default false p.segments

/-- Sum of the lengths of a list of segments. -/
def segsLength (l : List LineSegment) : ℝ :=
  (l.map LineSegment.length).sum

/-- Path::length from path.rs: sum of flattened segment lengths. -/
def Path.length (p : Path) (tol : ℝ) : ℝ :=
  segsLength (p.flatten tol)

/-- The loop of extract_range from path.rs, with explicit state (remaining
segments, accumulated arc position, started flag).  It returns the list of
commands appended to the result path, so emission order is preserved. -/
def extract_go (f t : ℝ) : List LineSegment → ℝ → Bool → List PathSeg
  | [], _, _ => []
  | seg :: rest, pos, started =>
    let len := seg.length
    let next := pos + len
    if next ≤ f then extract_go f t rest next started
    else if pos ≥ t then []
    else
      let start_t := if f > pos then (f - pos) / len else 0
      let end_t := if t < next then (t - pos) / len else 1
      let start_pt := lerpv seg.from_v seg.to_v start_t
      let end_pt := lerpv seg.from_v seg.to_v end_t
      let head :=
        if ¬started then [PathSeg.MoveTo start_pt]
        else if start_t > 0 then [PathSeg.MoveTo start_pt]
        else [PathSeg.LineTo start_pt]
      head ++ [PathSeg.LineTo end_pt] ++
        (if next ≥ t then [] else extract_go f t rest next true)

/-- extract_range from path.rs. -/
def extract_range (segs : List LineSegment) (f t : ℝ) : Path :=
  if f ≥ t then Path.new else ⟨extract_go f t segs 0 false⟩

/-- Predicate: a path segment is a plain MoveTo or LineTo command (the
only commands extract_range ever emits). -/
def moveline : PathSeg → Prop
  | PathSeg.MoveTo _ => True
  | PathSeg.LineTo _ => True
  | _ => False

/-- Arc length of a MoveTo and LineTo command list, starting from a given
current point: MoveTo jumps, LineTo accumulates the segment length.  For
such command lists this agrees with flattening and summing (proved
below); it is the measuring device for the trim bound. -/
def polylen (cur : Vec2) : List PathSeg → ℝ
  | [] => 0
  | PathSeg.MoveTo p :: rest => polylen p rest
  | PathSeg.LineTo p :: rest => LineSegment.length ⟨cur, p⟩ + polylen p rest
  | PathSeg.Cubic _ _ p :: rest => polylen p rest
  | PathSeg.Close :: rest => polylen cur rest

/-- f32::EPSILON as a real constant, for the geometry kernel. -/
def F32_EPSILON_R : ℝ := 1 / 8388608

/-- f32::clamp. -/
def fclamp (x lo hi : ℝ) : ℝ := if x < lo then lo else if x > hi then hi else x

/-- f32::abs on reals. -/
def fabsr (x : ℝ) : ℝ := if x < 0 then -x else x

/-- Path::trim from path.rs. -/
def Path.trim (p : Path) (start end_v tol : ℝ) : Path :=
  if fabsr (start - end_v) < F32_EPSILON_R then Path.new
  else if ((start ≤ 0 ∧ end_v ≥ 1) ∨ (start ≥ 1 ∧ end_v ≤ 0)) ∧ start ≠ end_v then p
  else
    let segs := p.flatten tol
    if segs.isEmpty then Path.new
    else
      let total := segsLength segs
      let s := fclamp start 0 1 * total
      let e := fclamp end_v 0 1 * total
      if start < end_v then extract_range segs s e
      else
        let first := extract_range segs s total
        let second := extract_range segs 0 e
        ⟨first.segments ++ second.segments⟩

end

/-! ## Rasterizer data types (types.rs, cpu.rs) -/

/-- RGBA color with 8-bit channels (Color in types.rs); u8 channels are
embedded as ℕ. -/
structure Color where
  r : ℕ
  g : ℕ
  b : ℕ
  a : ℕ
deriving DecidableEq

/-- GradientStop from types.rs. -/
structure GradientStop where
  offset : ℝ
  color : Color

/-- LinearGradient from types.rs. -/
structure LinearGradient where
  start : Vec2
  end_v : Vec2
  stops : List GradientStop

/-- RadialGradient from types.rs. -/
structure RadialGradient where
  center : Vec2
  radius : ℝ
  stops : List GradientStop

/-- Paint from types.rs. -/
inductive Paint where
  | Solid (c : Color)
  | Linear (g : LinearGradient)
  | Radial (g : RadialGradient)

/-- MatteType from types.rs. -/
inductive MatteType where
  | Alpha
  | AlphaInv
deriving DecidableEq

/-- A pixel buffer: a list of bytes (u8 embedded as ℕ). -/
abbrev Buffer := List ℕ

/-- slice::fill(0): every byte of the buffer becomes 0, length unchanged. -/
def fill0 (b : Buffer) : Buffer := b.map fun _ => 0

/-- The f32-to-u8 cast (as u8): negative values to 0, values above 255 to
255, otherwise truncation toward zero; on the exact rational embedding. -/
def u8_of_f32 (q : ℚ) : ℕ := if q < 0 then 0 else min 255 ⌊q⌋.toNat

/-- One past the largest usize value: usize arithmetic is performed
modulo this constant (64-bit target). -/
def USIZE : ℕ := 2 ^ 64

/-- blend_pixel from cpu.rs.  All the f32 arithmetic here is +, *, /, min
on values obtained from bytes, so it is embedded exactly over ℚ.  The
offset y * stride + x * 4 and the guard offset + 3 are computed by the
source in usize arithmetic, which in the release profile wraps modulo
2^64; every one of those operations is therefore taken mod USIZE here
(the arguments are usize values, i.e. already below USIZE).  The bounds
check is the one of the source: if the four target bytes do not all fit
in the buffer the function returns the buffer unchanged.  On the three
offsets 2^64 - 3 .. 2^64 - 1, where offset + 3 itself wraps, the source
panics at the slice indexing while this total model performs no-op
reads/writes; no theorem below is stated on that sliver. -/
def blend_pixel (buf : Buffer) (stride x y : ℕ) (src : Color) : Buffer :=
  let offset := ((y * stride) % USIZE + (x * 4) % USIZE) % USIZE
  if buf.length ≤ (offset + 3) % USIZE then buf
  else
    let dst_r : ℚ := buf.getD offset 0
    let dst_g : ℚ := buf.getD ((offset + 1) % USIZE) 0
    let dst_b : ℚ := buf.getD ((offset + 2) % USIZE) 0
    let dst_a : ℚ := buf.getD ((offset + 3) % USIZE) 0
    let sa : ℚ := (src.a : ℚ) / 255
    let ia : ℚ := 1 - sa
    let out_a := sa + dst_a / 255 * ia
    let out_r := (src.r : ℚ) * sa + dst_r * ia
    let out_g := (src.g : ℚ) * sa + dst_g * ia
    let out_b := (src.b : ℚ) * sa + dst_b * ia
    ((((buf.set offset (u8_of_f32 (min out_r 255))).set
        ((offset + 1) % USIZE) (u8_of_f32 (min out_g 255))).set
        ((offset + 2) % USIZE) (u8_of_f32 (min out_b 255))).set
        ((offset + 3) % USIZE) (u8_of_f32 (min (out_a * 255) 255)))

noncomputable section

/-- Truncation toward zero of an f32 to i32 (as i32), on reals. -/
def rtz (x : ℝ) : ℤ := if 0 ≤ x then ⌊x⌋ else ⌈x⌉

/-- The f32 round followed by the u8 cast (.round() as u8): round half
away from zero, then saturate into 0..255. -/
def u8_of_f32_round (x : ℝ) : ℕ :=
  if x < 0 then 0 else min 255 ⌊x + 1/2⌋.toNat

/-- edge from cpu.rs. -/
def edge (px py : ℝ) (a b : Vec2) : ℝ :=
  (px - a.x) * (b.y - a.y) - (py - a.y) * (b.x - a.x)

/-- inside_triangle from cpu.rs. -/
def inside_triangle (px py : ℝ) (a b c : Vec2) : Prop :=
  let e1 := edge px py a b
  let e2 := edge px py b c
  let e3 := edge px py c a
  (e1 ≥ 0 ∧ e2 ≥ 0 ∧ e3 ≥ 0) ∨ (e1 ≤ 0 ∧ e2 ≤ 0 ∧ e3 ≤ 0)

instance (px py : ℝ) (a b c : Vec2) : Decidable (inside_triangle px py a b c) := by
  unfold inside_triangle; infer_instance

/-- lerp_color from cpu.rs. -/
def lerp_color (a b : Color) (t : ℝ) : Color :=
  let clamped := fclamp t 0 1
  ⟨u8_of_f32_round ((a.r : ℝ) + ((b.r : ℝ) - (a.r : ℝ)) * clamped),
   u8_of_f32_round ((a.g : ℝ) + ((b.g : ℝ) - (a.g : ℝ)) * clamped),
   u8_of_f32_round ((a.b : ℝ) + ((b.b : ℝ) - (a.b : ℝ)) * clamped),
   u8_of_f32_round ((a.a : ℝ) + ((b.a : ℝ) - (a.a : ℝ)) * clamped)⟩

/-- The window scan inside sample_stops: walk consecutive stop pairs. -/
def stops_scan (t : ℝ) : GradientStop → List GradientStop → Color
  | s0, [] => s0.color
  | s0, s1 :: rest =>
    if t ≤ s1.offset then
      lerp_color s0.color s1.color ((t - s0.offset) / (s1.offset - s0.offset))
    else stops_scan t s1 rest

/-- sample_stops from cpu.rs. -/
def sample_stops (stops : List GradientStop) (t : ℝ) : Color :=
  match stops with
  | [] => ⟨0, 0, 0, 255⟩
  | s0 :: rest => if t ≤ s0.offset then s0.color else stops_scan t s0 rest

/-- sample_linear from cpu.rs; division by a zero squared length falls
back to t = 0 as in the source. -/
def sample_linear (g : LinearGradient) (p : Vec2) : Color :=
  let dx := g.end_v.x - g.start.x
  let dy := g.end_v.y - g.start.y
  let len_sq := dx * dx + dy * dy
  let t := if len_sq = 0 then 0
    else ((p.x - g.start.x) * dx + (p.y - g.start.y) * dy) / len_sq
  sample_stops g.stops t

/-- sample_radial from cpu.rs. -/
def sample_radial (g : RadialGradient) (p : Vec2) : Color :=
  let dx := p.x - g.center.x
  let dy := p.y - g.center.y
  let dist := Real.sqrt (dx * dx + dy * dy)
  sample_stops g.stops (dist / g.radius)

/-- sample_paint from cpu.rs. -/
def sample_paint (paint : Paint) (p : Vec2) : Color :=
  match paint with
  | Paint.Solid c => c
  | Paint.Linear g => sample_linear g p
  | Paint.Radial g => sample_radial g p

/-- The color bound by the irrefutable let Paint::Solid(color) pattern of
cpu.rs; the callers only ever pass solid paints, so non-solid paints
return transparent black here. -/
def paint_solid_color : Paint → Color
  | Paint.Solid c => c
  | _ => ⟨0, 0, 0, 0⟩

/-- fill_triangle_paint from cpu.rs: integer bounding box clipped to the
target, then per-pixel-center inside test, paint sample, and blend. -/
def fill_triangle_paint (a b c : Vec2) (paint : Paint) (buf : Buffer)
    (w h stride : ℕ) : Buffer :=
  let min_x : ℤ := max ⌊min (min a.x b.x) c.x⌋ 0
  let max_x : ℤ := min ⌈max (max a.x b.x) c.x⌉ (w : ℤ)
  let min_y : ℤ := max ⌊min (min a.y b.y) c.y⌋ 0
  let max_y : ℤ := min ⌈max (max a.y b.y) c.y⌉ (h : ℤ)
  (List.range (max_y - min_y).toNat).foldl (fun bufY j =>
    let y : ℤ := min_y + j
    (List.range (max_x - min_x).toNat).foldl (fun bufX i =>
      let x : ℤ := min_x + i
      let px : ℝ := (x : ℝ) + 0.5
      let py : ℝ := (y : ℝ) + 0.5
      if inside_triangle px py a b c then
        blend_pixel bufX stride x.toNat y.toNat (sample_paint paint ⟨px, py⟩)
      else bufX) bufY) buf

/-- fill_triangle_mask from cpu.rs (the mask-writing variant recovered
from the spliced source, as the spec directs): mark covered pixels with
255 in the byte-per-pixel mask. -/
def fill_triangle_mask (a b c : Vec2) (buf : Buffer) (w h : ℕ) : Buffer :=
  let min_x : ℤ := max ⌊min (min a.x b.x) c.x⌋ 0
  let max_x : ℤ := min ⌈max (max a.x b.x) c.x⌉ (w : ℤ)
  let min_y : ℤ := max ⌊min (min a.y b.y) c.y⌋ 0
  let max_y : ℤ := min ⌈max (max a.y b.y) c.y⌉ (h : ℤ)
  (List.range (max_y - min_y).toNat).foldl (fun bufY j =>
    let y : ℤ := min_y + j
    (List.range (max_x - min_x).toNat).foldl (fun bufX i =>
      let x : ℤ := min_x + i
      let px : ℝ := (x : ℝ) + 0.5
      let py : ℝ := (y : ℝ) + 0.5
      if inside_triangle px py a b c then
        let idx := y.toNat * w + x.toNat
        if idx < bufX.length then bufX.set idx 255 else bufX
      else bufX) bufY) buf

/-- fill_triangle_masked from cpu.rs (recovered from the spliced source):
blend only where the alpha byte of the RGBA mask buffer is non-zero. -/
def fill_triangle_masked (a b c : Vec2) (color : Color) (mask : Buffer)
    (buf : Buffer) (w h stride : ℕ) : Buffer :=
  let min_x : ℤ := max ⌊min (min a.x b.x) c.x⌋ 0
  let max_x : ℤ := min ⌈max (max a.x b.x) c.x⌉ (w : ℤ)
  let min_y : ℤ := max ⌊min (min a.y b.y) c.y⌋ 0
  let max_y : ℤ := min ⌈max (max a.y b.y) c.y⌉ (h : ℤ)
  (List.range (max_y - min_y).toNat).foldl (fun bufY j =>
    let y : ℤ := min_y + j
    (List.range (max_x - min_x).toNat).foldl (fun bufX i =>
      let x : ℤ := min_x + i
      let px : ℝ := (x : ℝ) + 0.5
      let py : ℝ := (y : ℝ) + 0.5
      if inside_triangle px py a b c then
        let moff := y.toNat * stride + x.toNat * 4 + 3
        if moff < mask.length ∧ mask.getD moff 0 ≠ 0 then
          blend_pixel bufX stride x.toNat y.toNat color
        else bufX
      else bufX) bufY) buf

/-- Mesh from tess.rs. -/
structure Mesh where
  vertices : List Vec2
  indices : List ℕ

/-- slice::chunks(3) on the index list. -/
def chunks3 {α : Type} : List α → List (List α)
  | a :: b :: c :: rest => [a, b, c] :: chunks3 rest
  | [] => []
  | rest => [rest]

/-- tessellate_impl from tess.rs (the fan triangulator used without the
simd feature). -/
def tessellate_impl (p : Path) (tol : ℝ) : Mesh :=
  let segs := p.flatten tol
  match segs with
  | [] => ⟨[], []⟩
  | s0 :: _ =>
    let vertices := s0.from_v :: segs.map LineSegment.to_v
    let vertices :=
      if vertices.length > 1 ∧ vertices.getLast? = vertices.head? then
        vertices.dropLast
      else vertices
    let indices := (List.range (vertices.length - 2)).flatMap fun i => [0, i + 1, i + 2]
    ⟨vertices, indices⟩

/-- tessellate from tess.rs: optionally trim to the mask range first. -/
def tessellate (p : Path) (tol : ℝ) (mask : Option (ℝ × ℝ)) : Mesh :=
  match mask with
  | some (s, e) => tessellate_impl (p.trim s e tol) tol
  | none => tessellate_impl p tol

/-- draw_path from cpu.rs: tessellate and fill every index triple. -/
def draw_path (path : Path) (paint : Paint) (buf : Buffer)
    (w h stride : ℕ) : Buffer :=
  let mesh := tessellate path 0.2 none
  (chunks3 mesh.indices).foldl (fun b tri =>
    if tri.length < 3 then b
    else
      let v0 := mesh.vertices.getD (tri.getD 0 0) default
      let v1 := mesh.vertices.getD (tri.getD 1 0) default
      let v2 := mesh.vertices.getD (tri.getD 2 0) default
      fill_triangle_paint v0 v1 v2 paint b w h stride) buf

/-- draw_stroke from cpu.rs: flatten, then rasterize one quadrilateral
(two triangles) per segment; zero-length segments are skipped. -/
def draw_stroke (path : Path) (width_px : ℝ) (paint : Paint) (buf : Buffer)
    (w h stride : ℕ) : Buffer :=
  (path.flatten 0.2).foldl (fun b seg =>
    let dx := seg.to_v.x - seg.from_v.x
    let dy := seg.to_v.y - seg.from_v.y
    let len := Real.sqrt (dx * dx + dy * dy)
    if len = 0 then b
    else
      let nx := -dy / len * width_px * 0.5
      let ny := dx / len * width_px * 0.5
      let p1 : Vec2 := ⟨seg.from_v.x + nx, seg.from_v.y + ny⟩
      let p2 : Vec2 := ⟨seg.from_v.x - nx, seg.from_v.y - ny⟩
      let p3 : Vec2 := ⟨seg.to_v.x - nx, seg.to_v.y - ny⟩
      let p4 : Vec2 := ⟨seg.to_v.x + nx, seg.to_v.y + ny⟩
      fill_triangle_paint p1 p3 p4 paint
        (fill_triangle_paint p1 p2 p3 paint b w h stride) w h stride) buf

/-- draw_path_masked from cpu.rs. -/
def draw_path_masked (path : Path) (paint : Paint) (mask : Buffer)
    (buf : Buffer) (w h stride : ℕ) : Buffer :=
  let mesh := tessellate path 0.2 none
  let color := paint_solid_color paint
  (chunks3 mesh.indices).foldl (fun b tri =>
    if tri.length < 3 then b
    else
      let v0 := mesh.vertices.getD (tri.getD 0 0) default
      let v1 := mesh.vertices.getD (tri.getD 1 0) default
      let v2 := mesh.vertices.getD (tri.getD 2 0) default
      fill_triangle_masked v0 v1 v2 color mask b w h stride) buf

/-- draw_stroke_masked from cpu.rs. -/
def draw_stroke_masked (path : Path) (width_px : ℝ) (paint : Paint)
    (mask : Buffer) (buf : Buffer) (w h stride : ℕ) : Buffer :=
  let color := paint_solid_color paint
  (path.flatten 0.2).foldl (fun b seg =>
    let dx := seg.to_v.x - seg.from_v.x
    let dy := seg.to_v.y - seg.from_v.y
    let len := Real.sqrt (dx * dx + dy * dy)
    if len = 0 then b
    else
      let nx := -dy / len * width_px * 0.5
      let ny := dx / len * width_px * 0.5
      let p1 : Vec2 := ⟨seg.from_v.x + nx, seg.from_v.y + ny⟩
      let p2 : Vec2 := ⟨seg.from_v.x - nx, seg.from_v.y - ny⟩
      let p3 : Vec2 := ⟨seg.to_v.x - nx, seg.to_v.y - ny⟩
      let p4 : Vec2 := ⟨seg.to_v.x + nx, seg.to_v.y + ny⟩
      fill_triangle_masked p1 p3 p4 color mask
        (fill_triangle_masked p1 p2 p3 color mask b w h stride) w h stride) buf

/-- draw_mask from cpu.rs: rasterize the path at coverage 255 into the
byte-per-pixel mask buffer. -/
def draw_mask (path : Path) (mask : Buffer) (w h : ℕ) : Buffer :=
  let mesh := tessellate path 0.2 none
  (chunks3 mesh.indices).foldl (fun b tri =>
    if tri.length < 3 then b
    else
      let v0 := mesh.vertices.getD (tri.getD 0 0) default
      let v1 := mesh.vertices.getD (tri.getD 1 0) default
      let v2 := mesh.vertices.getD (tri.getD 2 0) default
      fill_triangle_mask v0 v1 v2 b w h) mask

/-- blend_masked from cpu.rs: per pixel, modulate the source by the mask
byte (inverted for AlphaInv) and source-over blend onto the destination.
The per-channel arithmetic is exact over ℚ. -/
def blend_masked (dest : Buffer) (src mask : Buffer) (matte : MatteType)
    (w h stride : ℕ) : Buffer :=
  (List.range h).foldl (fun dY y =>
    (List.range w).foldl (fun d x =>
      let o := y * stride + x * 4
      let m0 : ℚ := (mask.getD (y * w + x) 0 : ℕ) / 255
      let m := if matte = MatteType.AlphaInv then 1 - m0 else m0
      let sa := (src.getD (o + 3) 0 : ℚ) / 255 * m
      if sa = 0 then d
      else
        let sr := (src.getD o 0 : ℚ) * m
        let sg := (src.getD (o + 1) 0 : ℚ) * m
        let sb := (src.getD (o + 2) 0 : ℚ) * m
        let dr := (d.getD o 0 : ℚ)
        let dg := (d.getD (o + 1) 0 : ℚ)
        let db := (d.getD (o + 2) 0 : ℚ)
        let da := (d.getD (o + 3) 0 : ℚ) / 255
        let ia := 1 - sa
        let out_a := sa + da * ia
        let out_r := sr + dr * ia
        let out_g := sg + dg * ia
        let out_b := sb + db * ia
        ((((d.set o (u8_of_f32 (min out_r 255))).set
            (o + 1) (u8_of_f32 (min out_g 255))).set
            (o + 2) (u8_of_f32 (min out_b 255))).set
            (o + 3) (u8_of_f32 (min (out_a * 255) 255)))) dY) dest

/-- Glyph metrics returned by the font collaborator (fontdue), as the spec
describes them: width, height, xmin, ymin, advance_width. -/
structure Metrics where
  width : ℕ
  height : ℕ
  xmin : ℤ
  ymin : ℤ
  advance_width : ℝ

/-- The font collaborator: given a character and a size it returns metrics
and a coverage bitmap.  The renderer treats it as an opaque function. -/
structure Font where
  rasterize : Char → ℝ → Metrics × List ℕ

/-- TextLayer from types.rs. -/
structure TextLayer where
  text : List Char
  color : Color
  size : ℝ
  position : Vec2
  font : Font

/-- draw_text from cpu.rs: blit each glyph bitmap with source-over
blending, advancing the cursor. -/
def draw_text (layer : TextLayer) (buf : Buffer) (w h stride : ℕ) : Buffer :=
  (layer.text.foldl (fun (st : ℝ × Buffer) ch =>
    let cursor_x := st.1
    let mb := layer.font.rasterize ch layer.size
    let metrics := mb.1
    let bitmap := mb.2
    let x0 := cursor_x + (metrics.xmin : ℝ)
    let y0 := layer.position.y - (metrics.height : ℝ) - (metrics.ymin : ℝ)
    let b2 := (List.range metrics.height).foldl (fun bY (y : ℕ) =>
      let yy : ℤ := rtz y0 + (y : ℤ)
      if yy < 0 ∨ yy ≥ (h : ℤ) then bY
      else (List.range metrics.width).foldl (fun bX (x : ℕ) =>
        let xx : ℤ := rtz x0 + (x : ℤ)
        if xx < 0 ∨ xx ≥ (w : ℤ) then bX
        else
          let cov := bitmap.getD (y * metrics.width + x) 0
          if cov = 0 then bX
          else
            let c : Color := ⟨layer.color.r, layer.color.g, layer.color.b,
              cov * layer.color.a / 255⟩
            blend_pixel bX stride xx.toNat yy.toNat c) bY) st.2
    (cursor_x + metrics.advance_width, b2)) (layer.position.x, buf)).2

/-! ## Composition model and frame renderer (types.rs) -/

/-- PathCommand from types.rs (the wire form stored on shapes). -/
inductive PathCommand where
  | MoveTo (p : Vec2)
  | LineTo (p : Vec2)
  | CubicTo (c1 c2 p : Vec2)
  | Close

/-- ShapeLayer from types.rs.  The animators map is carried as data; the
rendering path never reads it. -/
structure ShapeLayer where
  paths : List (List PathCommand)
  fill : Option Color
  stroke : Option Color
  stroke_width : ℝ
  mask : Option (List (List PathCommand))
  trim : Option (ℝ × ℝ)
  animators : List (String × Animator ℚ)
  is_mask : Bool
  matte : Option MatteType

/-- ImageLayer from types.rs. -/
structure ImageLayer where
  width : ℕ
  height : ℕ
  pixels : List ℕ

mutual
/-- Composition from types.rs: dimensions, frame range, fps, layer list. -/
inductive Composition where
  | mk (width height start_frame end_frame : ℕ) (fps : ℚ)
      (layers : List Layer) : Composition
/-- Layer from types.rs.  The PreComp arm holds the nested composition
directly (the source wraps it in PreCompLayer, a plain box). -/
inductive Layer where
  | Shape (s : ShapeLayer) : Layer
  | Image (i : ImageLayer) : Layer
  | PreComp (comp : Composition) : Layer
  | Text (t : TextLayer) : Layer
end

/-- Composition width accessor. -/
def Composition.width : Composition → ℕ
  | .mk w _ _ _ _ _ => w

/-- Composition height accessor. -/
def Composition.height : Composition → ℕ
  | .mk _ h _ _ _ _ => h

/-- Composition start_frame accessor. -/
def Composition.start_frame : Composition → ℕ
  | .mk _ _ s _ _ _ => s

/-- Composition end_frame accessor. -/
def Composition.end_frame : Composition → ℕ
  | .mk _ _ _ e _ _ => e

/-- Composition layer list accessor. -/
def Composition.layers : Composition → List Layer
  | .mk _ _ _ _ _ ls => ls

/-- Composition::frame_at from types.rs.  u32 values are embedded as ℕ:
Nat subtraction is saturating, exactly like the saturating_sub of the
source, and under the spec hypothesis end_frame < u32::MAX neither the
+ 1 nor the final addition can overflow u32. -/
def Composition.frame_at (c : Composition) (frame : ℕ) : ℕ :=
  let total := c.end_frame - c.start_frame + 1
  let local_f := frame % total
  c.start_frame + local_f

/-- The mutable state of the layer loop in render_sync: destination
buffer, track-matte mask buffer, matte scratch layer buffer, have_mask
flag. -/
structure RState where
  buffer : Buffer
  mask_buf : Buffer
  layer_buf : Buffer
  have_mask : Bool

/-- Conversion of one PathCommand list into a Path with the (sx, sy)
output scaling applied to every coordinate.  The source inlines this
match three times inside render_sync. -/
def scaled_path (sx sy : ℝ) (cmds : List PathCommand) : Path :=
  cmds.foldl (fun path cmd =>
    match cmd with
    | PathCommand.MoveTo p => path.move_to ⟨p.x * sx, p.y * sy⟩
    | PathCommand.LineTo p => path.line_to ⟨p.x * sx, p.y * sy⟩
    | PathCommand.CubicTo c1 c2 p =>
      path.cubic_to ⟨c1.x * sx, c1.y * sy⟩ ⟨c2.x * sx, c2.y * sy⟩
        ⟨p.x * sx, p.y * sy⟩
    | PathCommand.Close => path.close) Path.new

/-- One iteration of the per-path loop inside the Layer::Shape arm of
render_sync: assemble the scaled path, apply the optional trim, then draw
fill and stroke into the destination or the matte scratch buffer.  The
pair bl carries (destination buffer, layer_buf). -/
def shape_paint_step (shape : ShapeLayer) (w h stride : ℕ) (sx sy : ℝ)
    (have_mask : Bool) (local_mask : Option Buffer)
    (bl : Buffer × Buffer) (cmds : List PathCommand) : Buffer × Buffer :=
  let path := scaled_path sx sy cmds
  let render_path :=
    match shape.trim with
    | some (s, e) => path.trim s e 0.2
    | none => path
  let bl1 : Buffer × Buffer :=
    match shape.fill with
    | some fill =>
      if have_mask = true ∧ shape.matte.isSome then
        (bl.1, draw_path render_path (Paint.Solid fill) bl.2 w h stride)
      else
        match local_mask with
        | some m =>
          (draw_path_masked render_path (Paint.Solid fill) m bl.1 w h stride, bl.2)
        | none =>
          (draw_path render_path (Paint.Solid fill) bl.1 w h stride, bl.2)
    | none => bl
  match shape.stroke with
  | some stroke =>
    if have_mask = true ∧ shape.matte.isSome then
      (bl1.1, draw_stroke render_path shape.stroke_width
        (Paint.Solid stroke) bl1.2 w h stride)
    else
      match local_mask with
      | some m =>
        (draw_stroke_masked render_path shape.stroke_width
          (Paint.Solid stroke) m bl1.1 w h stride, bl1.2)
      | none =>
        (draw_stroke render_path shape.stroke_width
          (Paint.Solid stroke) bl1.1 w h stride, bl1.2)
  | none => bl1

/-- The Layer::Shape arm of render_sync (types.rs): mask-source layers
rasterize into mask_buf and set have_mask; other shape layers build an
optional local clip, draw fill and stroke per path (into layer_buf when a
pending matte applies), and finally composite and reset the matte state
when have_mask was set. -/
def shape_step (shape : ShapeLayer) (w h stride : ℕ) (sx sy : ℝ)
    (st : RState) : RState :=
  if shape.is_mask then
    let m0 := fill0 st.mask_buf
    let m1 := shape.paths.foldl
      (fun mb cmds => draw_mask (scaled_path sx sy cmds) mb w h) m0
    ⟨st.buffer, m1, st.layer_buf, true⟩
  else
    let local_mask : Option Buffer :=
      match shape.mask with
      | none => none
      | some mask_paths => some (mask_paths.foldl
          (fun bm cmds => draw_path (scaled_path sx sy cmds)
            (Paint.Solid ⟨0, 0, 0, 255⟩) bm w h stride)
          (List.replicate st.buffer.length 0))
    let bl := shape.paths.foldl
      (shape_paint_step shape w h stride sx sy st.have_mask local_mask)
      (st.buffer, st.layer_buf)
    if st.have_mask = true then
      let buffer :=
        match shape.matte with
        | some m => blend_masked bl.1 bl.2 st.mask_buf m w h stride
        | none => bl.1
      ⟨buffer, fill0 st.mask_buf, fill0 bl.2, false⟩
    else
      ⟨bl.1, st.mask_buf, bl.2, st.have_mask⟩

mutual
/-- Composition::render_sync from types.rs.  The frame argument feeds
only the discarded _frame_no binding and the recursive PreComp calls; the
destination buffer is zero-filled first; the scratch buffers are freshly
allocated per call. -/
def render_sync : Composition → ℕ → Buffer → ℕ → ℕ → ℕ → Buffer
  | Composition.mk cw ch _sf _ef _fps layers, frame, buf, w, h, stride =>
    let _frame_no := (Composition.mk cw ch _sf _ef _fps layers).frame_at frame
    let buffer := fill0 buf
    let sx := (w : ℝ) / (cw : ℝ)
    let sy := (h : ℝ) / (ch : ℝ)
    let st0 : RState :=
      ⟨buffer, List.replicate (w * h * 4) 0, List.replicate buffer.length 0, false⟩
    (render_layers layers frame w h stride sx sy st0).buffer
termination_by c _ _ _ _ _ => sizeOf c
decreasing_by all_goals (simp_wf; try omega)

/-- The for-loop over layers inside render_sync. -/
def render_layers : List Layer → ℕ → ℕ → ℕ → ℕ → ℝ → ℝ → RState → RState
  | [], _, _, _, _, _, _, st => st
  | l :: rest, frame, w, h, stride, sx, sy, st =>
    render_layers rest frame w h stride sx sy
      (process_layer l frame w h stride sx sy st)
termination_by ls _ _ _ _ _ _ _ => sizeOf ls
decreasing_by all_goals (simp_wf; try omega)

/-- One iteration of the layer loop of render_sync: dispatch on the layer
variant. -/
def process_layer : Layer → ℕ → ℕ → ℕ → ℕ → ℝ → ℝ → RState → RState
  | Layer.Shape s, _frame, w, h, stride, sx, sy, st =>
    shape_step s w h stride sx sy st
  | Layer.Text t, _frame, w, h, stride, sx, sy, st =>
    ⟨draw_text ⟨t.text, t.color, t.size, ⟨t.position.x * sx, t.position.y * sy⟩,
        t.font⟩ st.buffer w h stride,
      st.mask_buf, st.layer_buf, st.have_mask⟩
  | Layer.PreComp comp, frame, w, h, stride, _sx, _sy, st =>
    ⟨render_sync comp frame st.buffer w h stride,
      st.mask_buf, st.layer_buf, st.have_mask⟩
  | Layer.Image _, _, _, _, _, _, _, st => st
termination_by l _ _ _ _ _ _ _ => sizeOf l
decreasing_by all_goals (simp_wf; try omega)
end

end

/-! ## Theorems -/

/-- Claim C2: frame_at is periodic with period end_frame - start_frame + 1
for compositions with start_frame <= end_frame and end_frame < u32::MAX:
adding the period to any frame that stays within u32 leaves frame_at
unchanged, every multiple of the period maps to start_frame, and with the
frame range 0..=10 the frame index 12 maps to 1. -/
theorem frame_at_periodic (c : Composition)
    (h1 : c.start_frame ≤ c.end_frame) (h2 : c.end_frame < 2 ^ 32 - 1) :
    (∀ f : ℕ, f + (c.end_frame - c.start_frame + 1) < 2 ^ 32 →
      c.frame_at (f + (c.end_frame - c.start_frame + 1)) = c.frame_at f) ∧
    (∀ k : ℕ, k * (c.end_frame - c.start_frame + 1) < 2 ^ 32 →
      c.frame_at (k * (c.end_frame - c.start_frame + 1)) = c.start_frame) ∧
    (c.start_frame = 0 → c.end_frame = 10 → c.frame_at 12 = 1) := by
  refine ⟨?_, ?_, ?_⟩
  · intro f _
    simp [Composition.frame_at, Nat.add_mod_right]
  · intro k _
    simp [Composition.frame_at, Nat.mul_mod_left]
  · intro hs he
    simp [Composition.frame_at, hs, he]

/-- Witness for frame_at_periodic at the composition with frame range
0..=10: frame_at 12 = 1, frame_at (12 + 11) = frame_at 12, and
frame_at (2 * 11) = 0. -/
theorem frame_at_periodic_witness :
    (Composition.mk 8 8 0 10 1 []).frame_at 12 = 1 ∧
    (Composition.mk 8 8 0 10 1 []).frame_at 23 =
      (Composition.mk 8 8 0 10 1 []).frame_at 12 ∧
    (Composition.mk 8 8 0 10 1 []).frame_at 22 = 0 := by
  have h := frame_at_periodic (Composition.mk 8 8 0 10 1 [])
    (by norm_num [Composition.start_frame, Composition.end_frame])
    (by norm_num [Composition.end_frame])
  refine ⟨h.2.2 rfl rfl, ?_, ?_⟩
  · have := h.1 12 (by norm_num [Composition.start_frame, Composition.end_frame])
    simpa [Composition.start_frame, Composition.end_frame] using this
  · have := h.2.1 2 (by norm_num [Composition.start_frame, Composition.end_frame])
    simpa [Composition.start_frame, Composition.end_frame] using this

/-- Claim C3: for the easing curve with control points (0.42, 0) and
(0.58, 1), value(0.25) is within 1e-4 of 0.129162.  The curve arithmetic
of timeline.rs uses only +, -, *, / on f32, embedded here exactly over ℚ,
and the whole evaluation (LUT walk, seed, 4 Newton iterations) is decided
by kernel computation. -/
theorem cubic_bezier_value_at_quarter :
    fabs (CubicBezier.value (CubicBezier.new ⟨42/100, 0⟩ ⟨58/100, 1⟩) (25/100)
      - 129162/1000000) < 1/10000 := by
  with_unfolding_all decide

/-- Claim C5: an easing curve whose control points satisfy c1.x = c1.y and
c2.x = c2.y returns its argument unchanged: the identity check of
CubicBezier::value compares the differences against f32::EPSILON, and both
differences are exactly zero. -/
theorem cubic_bezier_identity (b : CubicBezier) (h1 : b.c1.x = b.c1.y)
    (h2 : b.c2.x = b.c2.y) (x : ℚ) : b.value x = x := by
  rw [CubicBezier.value, if_pos]
  constructor <;> simp [fabs, h1, h2, F32_EPSILON]

/-- Witness for cubic_bezier_identity at the curve with control points
(1/2, 1/2) and (3/4, 3/4) and input 1/3. -/
theorem cubic_bezier_identity_witness :
    (CubicBezier.new ⟨1/2, 1/2⟩ ⟨3/4, 3/4⟩).c1.x =
      (CubicBezier.new ⟨1/2, 1/2⟩ ⟨3/4, 3/4⟩).c1.y ∧
    CubicBezier.value (CubicBezier.new ⟨1/2, 1/2⟩ ⟨3/4, 3/4⟩) (1/3) = 1/3 :=
  ⟨rfl, cubic_bezier_identity _ rfl rfl (1/3)⟩

/-- Helper for claim C4: in a well-formed keyframe chain the start of the
head precedes the end of the last keyframe. -/
theorem keyframe_chain_head_lt_last {T : Type} :
    ∀ (k0 : Keyframe T) (rest : List (Keyframe T)),
      (∀ kf ∈ k0 :: rest, kf.start < kf.end_u) →
      List.Chain' (fun p q => p.end_u ≤ q.start) (k0 :: rest) →
      k0.start < ((k0 :: rest).getLast (List.cons_ne_nil k0 rest)).end_u := by
  intro k0 rest
  induction rest generalizing k0 with
  | nil =>
    intro hmem _
    simpa using hmem k0 (by simp)
  | cons k1 rest2 ih =>
    intro hmem hchain
    rw [List.chain'_cons] at hchain
    have h01 : k0.end_u ≤ k1.start := hchain.1
    have h0 : k0.start < k0.end_u := hmem k0 (by simp)
    have h1 := ih k1 (fun kf hkf => hmem kf (by simp [hkf])) hchain.2
    rw [List.getLast_cons (List.cons_ne_nil k1 rest2)]
    omega

/-- Claim C4: Animator::value is constant outside the keyframe range for
well-formed animators (the data model requires end > start per keyframe
and sorted, non-overlapping keyframes): an empty animator yields the
default value, a frame at or before the first start yields the first
start value, and a frame at or after the last end yields the last end
value. -/
theorem animator_value_clamped {T : Type} [Lerp T] [Inhabited T]
    (a : Animator T) (hwf : a.WF) (f : ℚ) :
    (a.frames = [] → a.value f = default) ∧
    (∀ k0 rest, a.frames = k0 :: rest →
      (f ≤ (k0.start : ℚ) → a.value f = k0.start_v) ∧
      ((((k0 :: rest).getLast (List.cons_ne_nil k0 rest)).end_u : ℚ) ≤ f →
        a.value f =
          ((k0 :: rest).getLast (List.cons_ne_nil k0 rest)).end_v)) := by
  obtain ⟨frames⟩ := a
  constructor
  · intro hnil
    simp only [Animator.mk.injEq] at hnil
    subst hnil
    rfl
  · intro k0 rest hcons
    simp only [Animator.mk.injEq] at hcons
    subst hcons
    constructor
    · intro hle
      simp [Animator.value, hle]
    · intro hge
      have hwf1 : ∀ kf ∈ k0 :: rest, kf.start < kf.end_u := hwf.1
      have hwf2 : List.Chain' (fun p q => p.end_u ≤ q.start) (k0 :: rest) := hwf.2
      have hlt : k0.start <
          ((k0 :: rest).getLast (List.cons_ne_nil k0 rest)).end_u :=
        keyframe_chain_head_lt_last k0 rest hwf1 hwf2
      have hltq : ((k0.start : ℕ) : ℚ) <
          (((k0 :: rest).getLast (List.cons_ne_nil k0 rest)).end_u : ℚ) := by
        exact_mod_cast hlt
      have hnle : ¬ f ≤ (k0.start : ℚ) := by linarith
      simp [Animator.value, hnle, hge]

/-- Witness for animator_value_clamped on a one-keyframe animator from
frame 0 value 1 to frame 10 value 2: value(-1) = 1 and value(20) = 2. -/
theorem animator_value_clamped_witness :
    (Animator.mk [Keyframe.mk 0 10 (1 : ℚ) 2
        (CubicBezier.new ⟨0, 0⟩ ⟨1, 1⟩)]).value (-1) = 1 ∧
    (Animator.mk [Keyframe.mk 0 10 (1 : ℚ) 2
        (CubicBezier.new ⟨0, 0⟩ ⟨1, 1⟩)]).value 20 = 2 := by
  have hwf : (Animator.mk [Keyframe.mk 0 10 (1 : ℚ) 2
      (CubicBezier.new ⟨0, 0⟩ ⟨1, 1⟩)]).WF := by
    constructor
    · intro kf hkf
      simp only [Animator.WF, List.mem_singleton] at hkf
      subst hkf
      norm_num
    · exact List.chain'_singleton _
  have h1 := (animator_value_clamped _ hwf (-1)).2 _ _ rfl
  have h2 := (animator_value_clamped _ hwf 20).2 _ _ rfl
  exact ⟨h1.1 (by norm_num), h2.2 (by norm_num)⟩

/-- Claim C7 (amended): whenever the offset computation
y * stride + x * 4 + 3 stays below 2^64 (no usize overflow), blend_pixel
never writes outside the buffer: if the four bytes at offset
y*stride + x*4 do not all fit, the buffer is returned unchanged (no
partial write, no panic); otherwise the length is preserved and every
byte outside the four target positions is untouched.  As stated for
arbitrary stride and coordinates the claim is false (see the
counterexample): the source computes the offset in usize arithmetic,
which wraps in the release profile, so an offset whose mathematical
value is outside the buffer can wrap to an in-bounds position and four
bytes are blended there. -/
theorem blend_pixel_bounds (buf : Buffer) (stride x y : ℕ) (src : Color)
    (hov : y * stride + x * 4 + 3 < USIZE) :
    (buf.length ≤ y * stride + x * 4 + 3 →
      blend_pixel buf stride x y src = buf) ∧
    (y * stride + x * 4 + 3 < buf.length →
      (blend_pixel buf stride x y src).length = buf.length ∧
      ∀ i, i < y * stride + x * 4 ∨ y * stride + x * 4 + 3 < i →
        (blend_pixel buf stride x y src).getD i 0 = buf.getD i 0) := by
  have ea : (y * stride) % USIZE = y * stride := Nat.mod_eq_of_lt (by omega)
  have eb : (x * 4) % USIZE = x * 4 := Nat.mod_eq_of_lt (by omega)
  have e0 : (y * stride + x * 4) % USIZE = y * stride + x * 4 :=
    Nat.mod_eq_of_lt (by omega)
  have e1 : (y * stride + x * 4 + 1) % USIZE = y * stride + x * 4 + 1 :=
    Nat.mod_eq_of_lt (by omega)
  have e2 : (y * stride + x * 4 + 2) % USIZE = y * stride + x * 4 + 2 :=
    Nat.mod_eq_of_lt (by omega)
  have e3 : (y * stride + x * 4 + 3) % USIZE = y * stride + x * 4 + 3 :=
    Nat.mod_eq_of_lt hov
  constructor
  · intro hout
    simp [blend_pixel, ea, eb, e0, e1, e2, e3, hout]
  · intro hin
    have hni : ¬ buf.length ≤ y * stride + x * 4 + 3 := not_le.mpr hin
    constructor
    · simp [blend_pixel, ea, eb, e0, e1, e2, e3, hni]
    · intro i hi
      have h0 : y * stride + x * 4 ≠ i := by omega
      have h1 : y * stride + x * 4 + 1 ≠ i := by omega
      have h2 : y * stride + x * 4 + 2 ≠ i := by omega
      have h3 : y * stride + x * 4 + 3 ≠ i := by omega
      simp [blend_pixel, ea, eb, e0, e1, e2, e3, hni, List.getD_eq_getElem?_getD,
        List.getElem?_set_ne h0, List.getElem?_set_ne h1,
        List.getElem?_set_ne h2, List.getElem?_set_ne h3]

/-- Witness for blend_pixel_bounds: a 3-byte buffer rejects the write at
offset 0 and stays unchanged; in an 8-byte buffer a write at offset 0
leaves byte 4 unchanged. -/
theorem blend_pixel_bounds_witness :
    (0 * 4 + 0 * 4 + 3 < USIZE ∧
      ([0, 0, 0] : Buffer).length ≤ 0 * 4 + 0 * 4 + 3 ∧
      blend_pixel [0, 0, 0] 4 0 0 ⟨255, 1, 2, 255⟩ = [0, 0, 0]) ∧
    (0 * 4 + 0 * 4 + 3 < ([0, 0, 0, 0, 0, 0, 0, 0] : Buffer).length ∧
      (blend_pixel [0, 0, 0, 0, 0, 0, 0, 0] 4 0 0 ⟨9, 9, 9, 255⟩).getD 4 0 =
        ([0, 0, 0, 0, 0, 0, 0, 0] : Buffer).getD 4 0) :=
  ⟨⟨by decide, by decide,
    (blend_pixel_bounds [0, 0, 0] 4 0 0 ⟨255, 1, 2, 255⟩ (by decide)).1
      (by decide)⟩,
   ⟨by decide,
    ((blend_pixel_bounds [0, 0, 0, 0, 0, 0, 0, 0] 4 0 0 ⟨9, 9, 9, 255⟩
        (by decide)).2
      (by decide)).2 4 (Or.inr (by decide))⟩⟩

/-- Claim C7 counterexample: with stride = 2^63, y = 2, x = 1 the usize
offset computation 2 * 2^63 + 1 * 4 wraps to 4, so although the
mathematical offset lies far outside the 8-byte buffer (the claim then
demands the buffer be returned unchanged), the source passes the bounds
check and blends four bytes at the wrapped offset 4: the buffer changes,
refuting the claim as stated over every stride and coordinate. -/
theorem blend_pixel_bounds_counterexample :
    ([0, 0, 0, 0, 0, 0, 0, 0] : Buffer).length ≤ 2 * 2 ^ 63 + 1 * 4 + 3 ∧
    blend_pixel [0, 0, 0, 0, 0, 0, 0, 0] (2 ^ 63) 1 2 ⟨9, 9, 9, 255⟩ ≠
      [0, 0, 0, 0, 0, 0, 0, 0] := by
  constructor
  · norm_num
  · with_unfolding_all decide

/-- Claim C1: render_sync is a pure function of its inputs.  In this
functional embedding of types.rs (which reads no state other than its
arguments) two calls on identical composition, frame, buffer and
dimensions produce identical output bytes. -/
theorem render_sync_deterministic (c1 c2 : Composition) (f1 f2 : ℕ)
    (b1 b2 : Buffer) (w1 w2 h1 h2 s1 s2 : ℕ)
    (hc : c1 = c2) (hf : f1 = f2) (hb : b1 = b2) (hw : w1 = w2)
    (hh : h1 = h2) (hs : s1 = s2) :
    render_sync c1 f1 b1 w1 h1 s1 = render_sync c2 f2 b2 w2 h2 s2 := by
  subst hc hf hb hw hh hs
  rfl

/-- Helper: a foldl preserves any invariant preserved by its step. -/
theorem foldl_preserves {α β : Type _} (P : β → Prop) {f : β → α → β}
    (h : ∀ b a, P b → P (f b a)) :
    ∀ (l : List α) (b : β), P b → P (l.foldl f b) := by
  intro l
  induction l with
  | nil => intro b hb; exact hb
  | cons a rest ih => intro b hb; exact ih _ (h b a hb)

/-- Helper: fill0 keeps the buffer length. -/
theorem fill0_length (b : Buffer) : (fill0 b).length = b.length := by
  simp [fill0]

/-- Helper: fill0 produces the all-zero buffer of the same length. -/
theorem fill0_eq_replicate (b : Buffer) : fill0 b = List.replicate b.length 0 := by
  simp [fill0, List.map_const']

/-- Helper: blend_pixel keeps the buffer length. -/
theorem blend_pixel_length (buf : Buffer) (stride x y : ℕ) (src : Color) :
    (blend_pixel buf stride x y src).length = buf.length := by
  simp only [blend_pixel]
  split
  · rfl
  · simp

/-- Helper: fill_triangle_paint keeps the buffer length. -/
theorem fill_triangle_paint_length (a b c : Vec2) (paint : Paint)
    (buf : Buffer) (w h stride : ℕ) :
    (fill_triangle_paint a b c paint buf w h stride).length = buf.length := by
  simp only [fill_triangle_paint]
  refine foldl_preserves (fun (bb : Buffer) => bb.length = buf.length) ?_ _ _ rfl
  intro b0 j hb0
  refine foldl_preserves (fun (bb : Buffer) => bb.length = buf.length) ?_ _ _ hb0
  intro b1 i hb1
  split
  · rw [blend_pixel_length]; exact hb1
  · exact hb1

/-- Helper: fill_triangle_masked keeps the buffer length. -/
theorem fill_triangle_masked_length (a b c : Vec2) (color : Color)
    (mask buf : Buffer) (w h stride : ℕ) :
    (fill_triangle_masked a b c color mask buf w h stride).length = buf.length := by
  simp only [fill_triangle_masked]
  refine foldl_preserves (fun (bb : Buffer) => bb.length = buf.length) ?_ _ _ rfl
  intro b0 j hb0
  refine foldl_preserves (fun (bb : Buffer) => bb.length = buf.length) ?_ _ _ hb0
  intro b1 i hb1
  split
  · split
    · rw [blend_pixel_length]; exact hb1
    · exact hb1
  · exact hb1

/-- Helper: draw_path keeps the buffer length. -/
theorem draw_path_length (path : Path) (paint : Paint) (buf : Buffer)
    (w h stride : ℕ) :
    (draw_path path paint buf w h stride).length = buf.length := by
  simp only [draw_path]
  refine foldl_preserves (fun (bb : Buffer) => bb.length = buf.length) ?_ _ _ rfl
  intro b0 tri hb0
  split
  · exact hb0
  · rw [fill_triangle_paint_length]; exact hb0

/-- Helper: draw_path_masked keeps the buffer length. -/
theorem draw_path_masked_length (path : Path) (paint : Paint)
    (mask buf : Buffer) (w h stride : ℕ) :
    (draw_path_masked path paint mask buf w h stride).length = buf.length := by
  simp only [draw_path_masked]
  refine foldl_preserves (fun (bb : Buffer) => bb.length = buf.length) ?_ _ _ rfl
  intro b0 tri hb0
  split
  · exact hb0
  · rw [fill_triangle_masked_length]; exact hb0

/-- Helper: draw_stroke keeps the buffer length. -/
theorem draw_stroke_length (path : Path) (width_px : ℝ) (paint : Paint)
    (buf : Buffer) (w h stride : ℕ) :
    (draw_stroke path width_px paint buf w h stride).length = buf.length := by
  simp only [draw_stroke]
  refine foldl_preserves (fun (bb : Buffer) => bb.length = buf.length) ?_ _ _ rfl
  intro b0 seg hb0
  split
  · exact hb0
  · rw [fill_triangle_paint_length, fill_triangle_paint_length]; exact hb0

/-- Helper: draw_stroke_masked keeps the buffer length. -/
theorem draw_stroke_masked_length (path : Path) (width_px : ℝ)
    (paint : Paint) (mask buf : Buffer) (w h stride : ℕ) :
    (draw_stroke_masked path width_px paint mask buf w h stride).length =
      buf.length := by
  simp only [draw_stroke_masked]
  refine foldl_preserves (fun (bb : Buffer) => bb.length = buf.length) ?_ _ _ rfl
  intro b0 seg hb0
  split
  · exact hb0
  · rw [fill_triangle_masked_length, fill_triangle_masked_length]; exact hb0

/-- Helper: blend_masked keeps the destination length. -/
theorem blend_masked_length (dest src mask : Buffer) (matte : MatteType)
    (w h stride : ℕ) :
    (blend_masked dest src mask matte w h stride).length = dest.length := by
  simp only [blend_masked]
  refine foldl_preserves (fun (bb : Buffer) => bb.length = dest.length) ?_ _ _ rfl
  intro b0 y hb0
  refine foldl_preserves (fun (bb : Buffer) => bb.length = dest.length) ?_ _ _ hb0
  intro b1 x hb1
  split <;> split <;> simp [hb1]

/-- Helper: draw_text keeps the buffer length. -/
theorem draw_text_length (layer : TextLayer) (buf : Buffer)
    (w h stride : ℕ) :
    (draw_text layer buf w h stride).length = buf.length := by
  simp only [draw_text]
  refine (foldl_preserves (fun (st : ℝ × Buffer) => st.2.length = buf.length)
    ?_ _ _ rfl)
  intro st ch hst
  refine foldl_preserves (fun (bb : Buffer) => bb.length = buf.length) ?_ _ _ hst
  intro bY y hbY
  split
  · exact hbY
  · refine foldl_preserves (fun (bb : Buffer) => bb.length = buf.length) ?_ _ _ hbY
    intro bX x hbX
    split
    · exact hbX
    · split
      · exact hbX
      · rw [blend_pixel_length]; exact hbX

/-- Helper: shape_paint_step keeps the lengths of both buffers in the
pair. -/
theorem shape_paint_step_length (shape : ShapeLayer) (w h stride : ℕ)
    (sx sy : ℝ) (hm : Bool) (lm : Option Buffer) (bl : Buffer × Buffer)
    (cmds : List PathCommand) :
    (shape_paint_step shape w h stride sx sy hm lm bl cmds).1.length =
        bl.1.length ∧
      (shape_paint_step shape w h stride sx sy hm lm bl cmds).2.length =
        bl.2.length := by
  rcases hf : shape.fill with _ | fill <;> rcases hs : shape.stroke with _ | stroke <;>
    rcases hlm : lm with _ | m <;>
    by_cases hmm : hm = true ∧ shape.matte.isSome = true <;>
    simp [shape_paint_step, hf, hs, hlm, hmm, draw_path_length,
      draw_stroke_length, draw_path_masked_length, draw_stroke_masked_length]

/-- Helper: shape_step keeps the length of the destination buffer. -/
theorem shape_step_buffer_length (shape : ShapeLayer) (w h stride : ℕ)
    (sx sy : ℝ) (st : RState) :
    (shape_step shape w h stride sx sy st).buffer.length =
      st.buffer.length := by
  simp only [shape_step]
  split
  · rfl
  · have hbl := foldl_preserves
      (P := fun (x : Buffer × Buffer) =>
        x.1.length = st.buffer.length ∧ x.2.length = st.layer_buf.length)
      (fun b a hb => by
        have h := shape_paint_step_length shape w h stride sx sy st.have_mask
          (match shape.mask with
           | none => none
           | some mask_paths => some (mask_paths.foldl
              (fun bm cmds => draw_path (scaled_path sx sy cmds)
                (Paint.Solid ⟨0, 0, 0, 255⟩) bm w h stride)
              (List.replicate st.buffer.length 0))) b a
        exact ⟨h.1.trans hb.1, h.2.trans hb.2⟩)
      shape.paths (st.buffer, st.layer_buf) ⟨rfl, rfl⟩
    split
    · split
      · simp [blend_masked_length, hbl.1]
      · simpa using hbl.1
    · simpa using hbl.1

/-- Helper: the buffer after processing composition layers does not depend
on the frame argument, by strong induction on the size of the nested
composition tree.  The frame only feeds the discarded _frame_no binding
and the PreComp recursion. -/
theorem render_frame_irrel_aux :
    ∀ n : ℕ, ∀ c : Composition, sizeOf c ≤ n →
      ∀ f1 f2 buf w h stride,
        render_sync c f1 buf w h stride = render_sync c f2 buf w h stride := by
  intro n
  induction n with
  | zero =>
    intro c hc
    exfalso
    obtain ⟨cw, ch, sf, ef, fps, layers⟩ := c
    simp [Composition.mk.sizeOf_spec] at hc
  | succ n ih =>
    intro c hc f1 f2 buf w h stride
    obtain ⟨cw, ch, sf, ef, fps, layers⟩ := c
    have hls : sizeOf layers ≤ n := by
      rw [Composition.mk.sizeOf_spec] at hc
      omega
    have key : ∀ (ls : List Layer), sizeOf ls ≤ n → ∀ (sx sy : ℝ) (st : RState),
        render_layers ls f1 w h stride sx sy st =
          render_layers ls f2 w h stride sx sy st := by
      intro ls
      induction ls with
      | nil => intro _ sx sy st; simp only [render_layers]
      | cons l rest ihl =>
        intro hsz sx sy st
        have hrest : sizeOf rest ≤ n := by
          rw [List.cons.sizeOf_spec] at hsz
          have : 0 < sizeOf l := by cases l <;> simp_arith
          omega
        have hstep : process_layer l f1 w h stride sx sy st =
            process_layer l f2 w h stride sx sy st := by
          cases l with
          | Shape s => simp only [process_layer]
          | Image i => simp only [process_layer]
          | Text t => simp only [process_layer]
          | PreComp comp =>
            have hcomp : sizeOf comp ≤ n := by
              rw [List.cons.sizeOf_spec, Layer.PreComp.sizeOf_spec] at hsz
              omega
            simp only [process_layer]
            rw [ih comp hcomp f1 f2 st.buffer w h stride]
        simp only [render_layers]
        rw [hstep]
        exact ihl hrest sx sy _
    simp only [render_sync]
    rw [key layers hls]

/-- Claim C8: the output of render_sync does not depend on the frame
argument at all: the effective frame computed by frame_at binds only the
discarded _frame_no, no animated property is sampled anywhere in the
rendering path, and the PreComp recursion merely passes the frame on, so
any two frame indices produce identical output bytes. -/
theorem render_sync_frame_independent (c : Composition) (f1 f2 : ℕ)
    (buf : Buffer) (w h stride : ℕ) :
    render_sync c f1 buf w h stride = render_sync c f2 buf w h stride :=
  render_frame_irrel_aux (sizeOf c) c (Nat.le_refl _) f1 f2 buf w h stride

/-- Helper: the buffer length is preserved by render_sync, by the same
strong induction. -/
theorem render_length_aux :
    ∀ n : ℕ, ∀ c : Composition, sizeOf c ≤ n →
      ∀ f buf w h stride,
        (render_sync c f buf w h stride).length = buf.length := by
  intro n
  induction n with
  | zero =>
    intro c hc
    exfalso
    obtain ⟨cw, ch, sf, ef, fps, layers⟩ := c
    simp [Composition.mk.sizeOf_spec] at hc
  | succ n ih =>
    intro c hc f buf w h stride
    obtain ⟨cw, ch, sf, ef, fps, layers⟩ := c
    have hls : sizeOf layers ≤ n := by
      rw [Composition.mk.sizeOf_spec] at hc
      omega
    have key : ∀ (ls : List Layer), sizeOf ls ≤ n → ∀ (sx sy : ℝ) (st : RState),
        (render_layers ls f w h stride sx sy st).buffer.length =
          st.buffer.length := by
      intro ls
      induction ls with
      | nil => intro _ sx sy st; simp only [render_layers]
      | cons l rest ihl =>
        intro hsz sx sy st
        have hrest : sizeOf rest ≤ n := by
          rw [List.cons.sizeOf_spec] at hsz
          have : 0 < sizeOf l := by cases l <;> simp_arith
          omega
        have hstep : (process_layer l f w h stride sx sy st).buffer.length =
            st.buffer.length := by
          cases l with
          | Shape s =>
            simp only [process_layer]
            exact shape_step_buffer_length s w h stride sx sy st
          | Image i => simp only [process_layer]
          | Text t =>
            simp only [process_layer]
            exact draw_text_length _ st.buffer w h stride
          | PreComp comp =>
            have hcomp : sizeOf comp ≤ n := by
              rw [List.cons.sizeOf_spec, Layer.PreComp.sizeOf_spec] at hsz
              omega
            simp only [process_layer]
            exact ih comp hcomp f st.buffer w h stride
        simp only [render_layers]
        rw [ihl hrest sx sy _, hstep]
    simp only [render_sync]
    rw [key layers hls]
    simp [fill0_length]

/-- Helper: render_sync preserves the destination buffer length. -/
theorem render_sync_length (c : Composition) (f : ℕ) (buf : Buffer)
    (w h stride : ℕ) :
    (render_sync c f buf w h stride).length = buf.length :=
  render_length_aux (sizeOf c) c (Nat.le_refl _) f buf w h stride

/-- Helper: the layer loop preserves the destination buffer length. -/
theorem render_layers_buffer_length (ls : List Layer) (f w h stride : ℕ)
    (sx sy : ℝ) (st : RState) :
    (render_layers ls f w h stride sx sy st).buffer.length =
      st.buffer.length := by
  induction ls generalizing st with
  | nil => simp only [render_layers]
  | cons l rest ihl =>
    have hstep : (process_layer l f w h stride sx sy st).buffer.length =
        st.buffer.length := by
      cases l with
      | Shape s =>
        simp only [process_layer]
        exact shape_step_buffer_length s w h stride sx sy st
      | Image i => simp only [process_layer]
      | Text t =>
        simp only [process_layer]
        exact draw_text_length _ st.buffer w h stride
      | PreComp comp =>
        simp only [process_layer]
        exact render_sync_length comp f st.buffer w h stride
    simp only [render_layers]
    rw [ihl, hstep]

/-- Helper: render_sync only reads the incoming buffer through its
length, because it zero-fills the buffer first. -/
theorem render_sync_eq_of_length (c : Composition) (f : ℕ) (b1 b2 : Buffer)
    (w h stride : ℕ) (hb : b1.length = b2.length) :
    render_sync c f b1 w h stride = render_sync c f b2 w h stride := by
  obtain ⟨cw, ch, sf, ef, fps, layers⟩ := c
  simp only [render_sync]
  rw [fill0_eq_replicate, fill0_eq_replicate, hb]

/-- Claim C9: processing a PreComp layer erases all pixels written by the
earlier layers: whatever layer prefix ran before it and whatever the
incoming buffer contents were, the buffer right after the PreComp layer
equals the nested composition rendered into a zero buffer of the same
length, because the recursive render_sync call zero-fills its destination
first. -/
theorem precomp_layer_overwrites (p : Composition) (frame w h stride : ℕ)
    (sx sy : ℝ) (pre : List Layer) (st : RState) :
    (process_layer (Layer.PreComp p) frame w h stride sx sy
        (render_layers pre frame w h stride sx sy st)).buffer =
      render_sync p frame (List.replicate st.buffer.length 0) w h stride := by
  simp only [process_layer]
  apply render_sync_eq_of_length
  simp [render_layers_buffer_length]

/-- Claim C10: a track-matte mask never survives past one consuming
layer: when have_mask is set and a non-mask shape layer is processed, the
state afterwards always has have_mask reset to false and both the mask
buffer and the scratch layer buffer zero-filled, even when the layer
declares no matte mode (the mask is then discarded without being
applied). -/
theorem mask_cleared_after_consumer (shape : ShapeLayer) (w h stride : ℕ)
    (sx sy : ℝ) (st : RState) (hmask : shape.is_mask = false)
    (hhave : st.have_mask = true) :
    (shape_step shape w h stride sx sy st).have_mask = false ∧
    (shape_step shape w h stride sx sy st).mask_buf =
      List.replicate st.mask_buf.length 0 ∧
    (shape_step shape w h stride sx sy st).layer_buf =
      List.replicate st.layer_buf.length 0 := by
  have hbl := foldl_preserves
    (fun (x : Buffer × Buffer) =>
      x.1.length = st.buffer.length ∧ x.2.length = st.layer_buf.length)
    (fun b a hb => by
      have hx := shape_paint_step_length shape w h stride sx sy true
        (match shape.mask with
         | none => none
         | some mask_paths => some (mask_paths.foldl
            (fun bm cmds => draw_path (scaled_path sx sy cmds)
              (Paint.Solid ⟨0, 0, 0, 255⟩) bm w h stride)
            (List.replicate st.buffer.length 0))) b a
      exact ⟨hx.1.trans hb.1, hx.2.trans hb.2⟩)
    shape.paths (st.buffer, st.layer_buf) ⟨rfl, rfl⟩
  refine ⟨?_, ?_, ?_⟩
  · simp [shape_step, hmask, hhave]
  · simp [shape_step, hmask, hhave, fill0_eq_replicate]
  · simp only [shape_step, hmask, hhave, Bool.false_eq_true, if_false, if_true]
    rw [fill0_eq_replicate, hbl.2]

/-- Witness for mask_cleared_after_consumer: a non-mask shape layer with
no paths processed while a mask is pending resets the matte state. -/
theorem mask_cleared_after_consumer_witness :
    (shape_step (ShapeLayer.mk [] none none 0 none none [] false none)
        8 8 32 1 1 (RState.mk [] [] [] true)).have_mask = false ∧
    (shape_step (ShapeLayer.mk [] none none 0 none none [] false none)
        8 8 32 1 1 (RState.mk [] [] [] true)).mask_buf =
      List.replicate (RState.mk [] [] [] true).mask_buf.length 0 ∧
    (shape_step (ShapeLayer.mk [] none none 0 none none [] false none)
        8 8 32 1 1 (RState.mk [] [] [] true)).layer_buf =
      List.replicate (RState.mk [] [] [] true).layer_buf.length 0 :=
  mask_cleared_after_consumer
    (ShapeLayer.mk [] none none 0 none none [] false none)
    8 8 32 1 1 (RState.mk [] [] [] true) rfl rfl

/-- Witness for render_sync_deterministic on a concrete empty composition
and an empty buffer. -/
theorem render_sync_deterministic_witness :
    render_sync (Composition.mk 8 8 0 10 1 []) 0 [] 8 8 32 =
      render_sync (Composition.mk 8 8 0 10 1 []) 0 [] 8 8 32 :=
  render_sync_deterministic (Composition.mk 8 8 0 10 1 [])
    (Composition.mk 8 8 0 10 1 []) 0 0 [] [] 8 8 8 8 32 32
    rfl rfl rfl rfl rfl rfl

/-- Helper: segment lengths are non-negative. -/
theorem length_nonneg (s : LineSegment) : 0 ≤ s.length :=
  Real.sqrt_nonneg _

/-- Helper: segsLength of nil. -/
theorem segsLength_nil : segsLength [] = 0 := by
  simp [segsLength]

/-- Helper: segsLength of a cons. -/
theorem segsLength_cons (s : LineSegment) (l : List LineSegment) :
    segsLength (s :: l) = s.length + segsLength l := by
  simp [segsLength]

/-- Helper: total segment length is non-negative. -/
theorem segsLength_nonneg (l : List LineSegment) : 0 ≤ segsLength l := by
  induction l with
  | nil => simp [segsLength_nil]
  | cons s r ih =>
    rw [segsLength_cons]
    have := length_nonneg s
    linarith

/-- Helper: lerpv at 0 is the start point. -/
theorem lerpv_zero (a b : Vec2) : lerpv a b 0 = a := by
  simp [lerpv]

/-- Helper: lerpv at 1 is the end point. -/
theorem lerpv_one (a b : Vec2) : lerpv a b 1 = b := by
  obtain ⟨ax, ay⟩ := a
  obtain ⟨bx, bY⟩ := b
  simp [lerpv]

/-- Helper: the trivial segment from a point to itself has length 0. -/
theorem length_refl (a : Vec2) : LineSegment.length ⟨a, a⟩ = 0 := by
  simp [LineSegment.length]

/-- Helper: a zero-length segment has equal endpoints. -/
theorem from_eq_to_of_length_zero (s : LineSegment) (h : s.length = 0) :
    s.from_v = s.to_v := by
  obtain ⟨⟨ax, ay⟩, ⟨bx, bY⟩⟩ := s
  simp only [LineSegment.length] at h
  have harg : (bx - ax) * (bx - ax) + (bY - ay) * (bY - ay) ≤ 0 :=
    Real.sqrt_eq_zero'.mp h
  have hx : bx - ax = 0 := by nlinarith
  have hy : bY - ay = 0 := by nlinarith
  simp only [Vec2.mk.injEq]
  constructor <;> linarith

/-- Helper: the length of the sub-segment between two lerpv parameters is
the parameter difference times the segment length. -/
theorem piece_len (s : LineSegment) (t1 t2 : ℝ) (h : t1 ≤ t2) :
    LineSegment.length ⟨lerpv s.from_v s.to_v t1, lerpv s.from_v s.to_v t2⟩ =
      (t2 - t1) * s.length := by
  obtain ⟨⟨ax, ay⟩, ⟨bx, bY⟩⟩ := s
  simp only [LineSegment.length, lerpv]
  rw [show (ax + (bx - ax) * t2 - (ax + (bx - ax) * t1)) *
        (ax + (bx - ax) * t2 - (ax + (bx - ax) * t1)) +
      (ay + (bY - ay) * t2 - (ay + (bY - ay) * t1)) *
        (ay + (bY - ay) * t2 - (ay + (bY - ay) * t1)) =
      (t2 - t1) ^ 2 * ((bx - ax) * (bx - ax) + (bY - ay) * (bY - ay)) from by
    ring]
  rw [Real.sqrt_mul (sq_nonneg _), Real.sqrt_sq (by linarith)]

/-- Helper: extract_go only emits MoveTo and LineTo commands. -/
theorem extract_go_moveline (s e : ℝ) :
    ∀ (segs : List LineSegment) (pos : ℝ) (started : Bool),
      ∀ c ∈ extract_go s e segs pos started, moveline c := by
  intro segs
  induction segs with
  | nil => intro pos started c hc; simp [extract_go] at hc
  | cons seg rest ih =>
    intro pos started c hc
    simp only [extract_go] at hc
    by_cases h1 : pos + seg.length ≤ s
    · rw [if_pos h1] at hc
      exact ih _ _ c hc
    · rw [if_neg h1] at hc
      by_cases h2 : pos ≥ e
      · rw [if_pos h2] at hc
        simp at hc
      · rw [if_neg h2] at hc
        rw [List.mem_append] at hc
        rcases hc with hc | hc
        · rw [List.mem_append] at hc
          rcases hc with hc | hc
          · split at hc
            all_goals try split at hc
            all_goals try split at hc
            all_goals (simp at hc; subst hc; simp [moveline])
          · simp at hc; subst hc; simp [moveline]
        · split at hc
          · simp at hc
          · exact ih _ _ c hc

/-- Helper: on MoveTo and LineTo command lists, flattening and summing
segment lengths computes polylen, for any tolerance and flatten state. -/
theorem flatten_go_moveline (tol : ℝ) :
    ∀ (cmds : List PathSeg) (st cur : Vec2) (hs : Bool),
      (∀ c ∈ cmds, moveline c) →
      segsLength (flatten_go tol st cur hs cmds) = polylen cur cmds := by
  intro cmds
  induction cmds with
  | nil => intro st cur hs _; simp [flatten_go, polylen, segsLength_nil]
  | cons c rest ih =>
    intro st cur hs hml
    have hrest : ∀ c ∈ rest, moveline c := fun c hc => hml c (by simp [hc])
    cases c with
    | MoveTo p =>
      simp only [flatten_go, polylen]
      exact ih p p true hrest
    | LineTo p =>
      simp only [flatten_go, polylen, segsLength_cons]
      rw [ih st p hs hrest]
    | Cubic c1 c2 p =>
      exact absurd (hml (PathSeg.Cubic c1 c2 p) (by simp)) (by simp [moveline])
    | Close =>
      exact absurd (hml PathSeg.Close (by simp)) (by simp [moveline])

/-- Helper: the arc length of the commands emitted by extract_go on a
chained segment list is bounded by the still-uncovered part of the
requested arc range.  The started invariant records that once emission has
begun, the accumulated position has passed s and the current point sits at
the head of the remaining chain. -/
theorem extract_go_polylen_le (s e : ℝ) (h0s : 0 ≤ s) (hse : s ≤ e) :
    ∀ (segs : List LineSegment) (pos : ℝ) (started : Bool) (cur : Vec2),
      0 ≤ pos →
      List.Chain' (fun a b => b.from_v = a.to_v) segs →
      (started = true → s ≤ pos ∧ ∀ s0 r, segs = s0 :: r → cur = s0.from_v) →
      polylen cur (extract_go s e segs pos started) ≤
        max 0 (min e (pos + segsLength segs) - max s pos) := by
  intro segs
  induction segs with
  | nil =>
    intro pos started cur _ _ _
    simp only [extract_go, polylen]
    exact le_max_left 0 _
  | cons seg rest ih =>
    intro pos started cur hpos hchain hinv
    have hlen0 : 0 ≤ seg.length := length_nonneg seg
    have hrest0 : 0 ≤ segsLength rest := segsLength_nonneg rest
    have hchain' : List.Chain' (fun a b => b.from_v = a.to_v) rest :=
      (List.chain'_cons'.mp hchain).2
    simp only [extract_go]
    by_cases h1 : pos + seg.length ≤ s
    · rw [if_pos h1]
      have hinv' : started = true →
          s ≤ pos + seg.length ∧ ∀ s0 r, rest = s0 :: r → cur = s0.from_v := by
        intro hst
        obtain ⟨hsp, hcur⟩ := hinv hst
        refine ⟨by linarith, ?_⟩
        intro s0 r hr
        have hlz : seg.length = 0 := by linarith
        have hft := from_eq_to_of_length_zero seg hlz
        have hrel : s0.from_v = seg.to_v := by
          subst hr
          exact (List.chain'_cons.mp hchain).1
        rw [hcur seg rest rfl, hft, ← hrel]
      have hb := ih (pos + seg.length) started cur (by linarith) hchain' hinv'
      have hmax1 : max s pos = s := max_eq_left (by linarith)
      have hmax2 : max s (pos + seg.length) = s := max_eq_left h1
      rw [segsLength_cons, hmax1, ← add_assoc]
      rw [hmax2] at hb
      exact hb
    · rw [if_neg h1]
      by_cases h2 : pos ≥ e
      · rw [if_pos h2]
        simp only [polylen]
        exact le_max_left 0 _
      · rw [if_neg h2]
        push_neg at h1 h2
        set len := seg.length with hldef
        set T0 : ℝ := if s > pos then (s - pos) / len else 0 with hT0
        set T1 : ℝ := if e < pos + len then (e - pos) / len else 1 with hT1
        have hts : T0 * len = max s pos - pos := by
          rw [hT0]
          by_cases hsp : s > pos
          · rw [if_pos hsp]
            have hlnz : len ≠ 0 := by
              intro hz
              rw [hz, add_zero] at h1
              linarith
            rw [div_mul_cancel₀ _ hlnz, max_eq_left (le_of_lt hsp)]
          · rw [if_neg hsp]
            push_neg at hsp
            rw [max_eq_right hsp]
            ring
        have hte : T1 * len = min e (pos + len) - pos := by
          rw [hT1]
          by_cases hen : e < pos + len
          · rw [if_pos hen]
            have hlnz : len ≠ 0 := by
              intro hz
              rw [hz, add_zero] at hen
              linarith
            rw [div_mul_cancel₀ _ hlnz, min_eq_left (le_of_lt hen)]
          · rw [if_neg hen]
            push_neg at hen
            rw [min_eq_right hen]
            ring
        have hminmax : max s pos ≤ min e (pos + len) := by
          refine le_min (max_le hse (le_of_lt h2)) (max_le (le_of_lt h1) ?_)
          linarith
        have ht01 : T0 ≤ T1 := by
          rcases eq_or_lt_of_le hlen0 with hz | hp
          · rw [hT0, hT1]
            have hsp : ¬ s > pos := by
              rw [← hz, add_zero] at h1
              linarith
            have hen : ¬ e < pos + len := by
              rw [← hz, add_zero]
              linarith
            rw [if_neg hsp, if_neg hen]
            norm_num
          · nlinarith [hts, hte, hminmax]
        have hpiece : LineSegment.length
            ⟨lerpv seg.from_v seg.to_v T0, lerpv seg.from_v seg.to_v T1⟩ =
              min e (pos + len) - max s pos := by
          rw [piece_len seg T0 T1 ht01, ← hldef, sub_mul, hts, hte]
          ring
        by_cases hstop : pos + len ≥ e
        · rw [if_pos hstop]
          have hbound : min e (pos + len) - max s pos ≤
              max 0 (min e (pos + segsLength (seg :: rest)) - max s pos) := by
            rw [segsLength_cons, ← hldef]
            have hmono : min e (pos + len) ≤ min e (pos + (len + segsLength rest)) :=
              min_le_min (le_refl e) (by linarith)
            refine le_max_of_le_right ?_
            linarith
          cases started with
          | false =>
            rw [if_pos (show ¬(false = true) by simp)]
            simp only [List.cons_append, List.nil_append, List.append_nil, polylen]
            rw [hpiece]
            linarith [hbound]
          | true =>
            obtain ⟨hsp, hcur⟩ := hinv rfl
            have hT0z : T0 = 0 := by
              rw [hT0, if_neg (by push_neg; exact hsp)]
            rw [hT0z, lerpv_zero] at hpiece
            rw [if_neg (show ¬¬(true = true) by simp), hT0z,
              if_neg (show ¬((0 : ℝ) > 0) by norm_num)]
            simp only [List.cons_append, List.nil_append, List.append_nil, polylen]
            rw [lerpv_zero, hcur seg rest rfl, length_refl, hpiece]
            linarith [hbound]
        · rw [if_neg hstop]
          push_neg at hstop
          have hT1one : T1 = 1 := by
            rw [hT1, if_neg (by push_neg; linarith)]
          have hinv2 : true = true → s ≤ pos + len ∧
              ∀ s0 r, rest = s0 :: r → seg.to_v = s0.from_v := by
            intro _
            refine ⟨le_of_lt h1, ?_⟩
            intro s0 r hr
            subst hr
            exact ((List.chain'_cons.mp hchain).1).symm
          have hb := ih (pos + len) true seg.to_v (by linarith) hchain' hinv2
          rw [max_eq_right (le_of_lt h1)] at hb
          have hgmin : pos + len ≤ min e (pos + len + segsLength rest) :=
            le_min (le_of_lt hstop) (by linarith)
          rw [max_eq_right
            (by linarith : (0 : ℝ) ≤ min e (pos + len + segsLength rest) - (pos + len))] at hb
          rw [min_eq_right (le_of_lt hstop)] at hpiece
          rw [hT1one, lerpv_one] at hpiece
          rw [hT1one, lerpv_one, segsLength_cons, ← hldef, ← add_assoc]
          have hnil : ([] : List PathSeg).append
              (extract_go s e rest (pos + len) true) =
                extract_go s e rest (pos + len) true := rfl
          cases started with
          | false =>
            rw [if_pos (show ¬(false = true) by simp)]
            simp only [List.cons_append, List.nil_append, polylen]
            try rw [hnil]
            rw [hpiece]
            refine le_max_of_le_right ?_
            linarith [hb]
          | true =>
            obtain ⟨hsp, hcur⟩ := hinv rfl
            have hT0z : T0 = 0 := by
              rw [hT0, if_neg (by push_neg; exact hsp)]
            rw [hT0z, lerpv_zero] at hpiece
            rw [if_neg (show ¬¬(true = true) by simp), hT0z,
              if_neg (show ¬((0 : ℝ) > 0) by norm_num)]
            simp only [List.cons_append, List.nil_append, polylen]
            try rw [hnil]
            rw [lerpv_zero, hcur seg rest rfl, length_refl, hpiece]
            refine le_max_of_le_right ?_
            linarith [hb]

/-- Helper: fclamp into the unit interval lands in the unit interval. -/
theorem fclamp_mem (x : ℝ) : 0 ≤ fclamp x 0 1 ∧ fclamp x 0 1 ≤ 1 := by
  unfold fclamp
  split_ifs <;> constructor <;> linarith

/-- Helper: clamping to the unit interval is a contraction. -/
theorem fclamp_diff_le (a b : ℝ) (h : a ≤ b) :
    fclamp b 0 1 - fclamp a 0 1 ≤ b - a := by
  unfold fclamp
  split_ifs <;> linarith

/-- Helper: the empty path has zero flattened length. -/
theorem path_length_new (tol : ℝ) : Path.length Path.new tol = 0 := by
  simp [Path.length, Path.new, Path.flatten, flatten_go, segsLength_nil]

/-- Claim C6 (amended): for every path whose flattened polyline is
connected (each flattened segment starts where the previous one ends) and
every start < end, the flattened length of trim(start, end, tol) is at
most (end - start) times the flattened length of the path.  As stated for
arbitrary paths the claim is false (see the counterexample): on a path
with disconnected subpaths, extract_range bridges the gap between
subpaths with a LineTo of unbounded length. -/
theorem trim_length_le (p : Path) (tol start end_v : ℝ)
    (hlt : start < end_v)
    (hchain : List.Chain' (fun a b => b.from_v = a.to_v) (p.flatten tol)) :
    Path.length (p.trim start end_v tol) tol ≤
      (end_v - start) * Path.length p tol := by
  have hL0 : 0 ≤ Path.length p tol := segsLength_nonneg _
  simp only [Path.trim]
  by_cases hc1 : fabsr (start - end_v) < F32_EPSILON_R
  · rw [if_pos hc1, path_length_new]
    exact mul_nonneg (by linarith) hL0
  · rw [if_neg hc1]
    by_cases hc2 : (((start ≤ 0 ∧ end_v ≥ 1) ∨ (start ≥ 1 ∧ end_v ≤ 0)) ∧
        start ≠ end_v)
    · rw [if_pos hc2]
      rcases hc2.1 with ⟨hs0, he1⟩ | ⟨hs1, he0⟩
      · nlinarith [hL0]
      · linarith
    · rw [if_neg hc2]
      by_cases hc3 : (p.flatten tol).isEmpty
      · rw [if_pos hc3, path_length_new]
        exact mul_nonneg (by linarith) hL0
      · rw [if_neg hc3, if_pos hlt]
        simp only [extract_range]
        set L := segsLength (p.flatten tol) with hLdef
        set cs := fclamp start 0 1 with hcs
        set ce := fclamp end_v 0 1 with hce
        have hLP : Path.length p tol = L := by rw [hLdef]; rfl
        have hcsm := fclamp_mem start
        have hcem := fclamp_mem end_v
        rw [← hcs] at hcsm
        rw [← hce] at hcem
        have hdiff : ce - cs ≤ end_v - start := by
          rw [hcs, hce]
          exact fclamp_diff_le start end_v (le_of_lt hlt)
        by_cases hc4 : cs * L ≥ ce * L
        · rw [if_pos hc4, path_length_new, hLP]
          exact mul_nonneg (by linarith) (hLP ▸ hL0)
        · rw [if_neg hc4]
          push_neg at hc4
          have hml := extract_go_moveline (cs * L) (ce * L) (p.flatten tol) 0 false
          have hpl : Path.length ⟨extract_go (cs * L) (ce * L) (p.flatten tol) 0 false⟩ tol
              = polylen default (extract_go (cs * L) (ce * L) (p.flatten tol) 0 false) := by
            simp only [Path.length, Path.flatten]
            exact flatten_go_moveline tol _ default default false hml
          rw [hpl]
          have hkey := extract_go_polylen_le (cs * L) (ce * L)
            (mul_nonneg hcsm.1 (hLdef ▸ segsLength_nonneg _)) (le_of_lt hc4)
            (p.flatten tol) 0 false default (le_refl 0) hchain
            (fun h => absurd h Bool.false_ne_true)
          rw [← hLdef] at hkey
          have hLge : 0 ≤ L := hLdef ▸ segsLength_nonneg _
          have h1 : max (cs * L) 0 = cs * L :=
            max_eq_left (mul_nonneg hcsm.1 hLge)
          have h2 : min (ce * L) (0 + L) = ce * L := by
            rw [zero_add]
            exact min_eq_left (by nlinarith [hcem.2])
          rw [h1, h2, max_eq_right (by linarith : (0:ℝ) ≤ ce * L - cs * L)] at hkey
          rw [hLP]
          nlinarith [hkey, hLge, hdiff]

/-- Witness for trim_length_le on the one-segment path from (0,0) to
(1,0): trimming to the front half at tolerance 1/5 keeps at most half the
length. -/
theorem trim_length_le_witness :
    (0 : ℝ) < 1/2 ∧
    List.Chain' (fun a b => b.from_v = a.to_v)
      ((Path.mk [PathSeg.MoveTo ⟨0, 0⟩, PathSeg.LineTo ⟨1, 0⟩]).flatten (1/5)) ∧
    Path.length ((Path.mk [PathSeg.MoveTo ⟨0, 0⟩, PathSeg.LineTo ⟨1, 0⟩]).trim
        0 (1/2) (1/5)) (1/5) ≤
      ((1/2 : ℝ) - 0) *
        Path.length (Path.mk [PathSeg.MoveTo ⟨0, 0⟩, PathSeg.LineTo ⟨1, 0⟩]) (1/5) := by
  have hch : List.Chain' (fun a b => b.from_v = a.to_v)
      ((Path.mk [PathSeg.MoveTo ⟨0, 0⟩, PathSeg.LineTo ⟨1, 0⟩]).flatten (1/5)) := by
    simp [Path.flatten, flatten_go]
  exact ⟨by norm_num, hch,
    trim_length_le (Path.mk [PathSeg.MoveTo ⟨0, 0⟩, PathSeg.LineTo ⟨1, 0⟩])
      (1/5) 0 (1/2) (by norm_num) hch⟩

/-- Counterexample for claim C6 as stated: on the two-subpath path
MoveTo (0,0), LineTo (1,0), MoveTo (1,100), LineTo (2,100), whose
flattened length is 2, trimming to the range (0, 9/10) produces a path of
flattened length 509/5 = 101.8, because extract_range emits a LineTo that
bridges the 100-unit gap between the two subpaths.  The bound
(end - start) * L of the claim is 1.8, and even a tolerance of 98 does
not save it. -/
theorem trim_length_counterexample :
    (0 : ℝ) < 9/10 ∧
    Path.length (Path.mk [PathSeg.MoveTo ⟨0, 0⟩, PathSeg.LineTo ⟨1, 0⟩,
      PathSeg.MoveTo ⟨1, 100⟩, PathSeg.LineTo ⟨2, 100⟩]) (1/5) = 2 ∧
    Path.length ((Path.mk [PathSeg.MoveTo ⟨0, 0⟩, PathSeg.LineTo ⟨1, 0⟩,
      PathSeg.MoveTo ⟨1, 100⟩, PathSeg.LineTo ⟨2, 100⟩]).trim 0 (9/10) (1/5))
      (1/5) = 509/5 ∧
    ¬ Path.length ((Path.mk [PathSeg.MoveTo ⟨0, 0⟩, PathSeg.LineTo ⟨1, 0⟩,
      PathSeg.MoveTo ⟨1, 100⟩, PathSeg.LineTo ⟨2, 100⟩]).trim 0 (9/10) (1/5))
      (1/5) ≤
      ((9/10 : ℝ) - 0) *
        Path.length (Path.mk [PathSeg.MoveTo ⟨0, 0⟩, PathSeg.LineTo ⟨1, 0⟩,
          PathSeg.MoveTo ⟨1, 100⟩, PathSeg.LineTo ⟨2, 100⟩]) (1/5) + 98 := by
  have h1 : LineSegment.length ⟨⟨0, 0⟩, ⟨1, 0⟩⟩ = 1 := by
    simp only [LineSegment.length]
    norm_num [Real.sqrt_one]
  have h2 : LineSegment.length ⟨⟨1, 100⟩, ⟨2, 100⟩⟩ = 1 := by
    simp only [LineSegment.length]
    norm_num [Real.sqrt_one]
  have h3 : LineSegment.length ⟨⟨1, 0⟩, ⟨1, 100⟩⟩ = 100 := by
    simp only [LineSegment.length]
    rw [show ((1 : ℝ) - 1) * ((1 : ℝ) - 1) + (100 - 0) * (100 - 0) = 100 ^ 2 by
      norm_num]
    exact Real.sqrt_sq (by norm_num)
  have h4 : LineSegment.length ⟨⟨1, 100⟩, ⟨9/5, 100⟩⟩ = 4/5 := by
    simp only [LineSegment.length]
    rw [show ((9/5 : ℝ) - 1) * ((9/5 : ℝ) - 1) + (100 - 100) * (100 - 100) =
        (4/5) ^ 2 by norm_num]
    exact Real.sqrt_sq (by norm_num)
  have hflat : Path.flatten (Path.mk [PathSeg.MoveTo ⟨0, 0⟩, PathSeg.LineTo ⟨1, 0⟩,
      PathSeg.MoveTo ⟨1, 100⟩, PathSeg.LineTo ⟨2, 100⟩]) (1/5) =
      [⟨⟨0, 0⟩, ⟨1, 0⟩⟩, ⟨⟨1, 100⟩, ⟨2, 100⟩⟩] := rfl
  have hseg : segsLength [(⟨⟨0, 0⟩, ⟨1, 0⟩⟩ : LineSegment), ⟨⟨1, 100⟩, ⟨2, 100⟩⟩] = 2 := by
    rw [segsLength_cons, segsLength_cons, segsLength_nil, h1, h2]
    norm_num
  have hLP : Path.length (Path.mk [PathSeg.MoveTo ⟨0, 0⟩, PathSeg.LineTo ⟨1, 0⟩,
      PathSeg.MoveTo ⟨1, 100⟩, PathSeg.LineTo ⟨2, 100⟩]) (1/5) = 2 := by
    unfold Path.length
    rw [hflat, hseg]
  have hfinal : Path.length ((Path.mk [PathSeg.MoveTo ⟨0, 0⟩, PathSeg.LineTo ⟨1, 0⟩,
      PathSeg.MoveTo ⟨1, 100⟩, PathSeg.LineTo ⟨2, 100⟩]).trim 0 (9/10) (1/5))
      (1/5) = 509/5 := by
    unfold Path.trim
    rw [if_neg (by norm_num [fabsr, F32_EPSILON_R])]
    rw [if_neg (by norm_num)]
    rw [hflat]
    rw [if_neg (by simp)]
    rw [if_pos (by norm_num : (0 : ℝ) < 9/10)]
    rw [hseg]
    rw [show fclamp 0 0 1 * 2 = (0 : ℝ) by norm_num [fclamp]]
    rw [show fclamp (9/10) 0 1 * 2 = (9/5 : ℝ) by norm_num [fclamp]]
    unfold extract_range
    rw [if_neg (by norm_num : ¬(0 : ℝ) ≥ 9/5)]
    simp only [extract_go, h1, h2]
    norm_num [lerpv]
    unfold Path.length Path.flatten
    simp only [flatten_go]
    rw [segsLength_cons, segsLength_cons, segsLength_cons, segsLength_nil]
    rw [h1, h3, h4]
    norm_num
  refine ⟨by norm_num, hLP, hfinal, ?_⟩
  rw [hLP, hfinal]
  norm_num

end Rlottie
